import Mathlib

/-!
Verification development for the AutoSAD streaming anomaly-detection
ensemble (source: `AutoSAD/autosad copy 9.py`, its most complete variant).

The Python code is shallowly embedded: Python floats are modelled as exact
rationals (`ℚ`), mutable objects as Lean structures with explicit state
passing, and the module-level seeded NumPy/`random` generator as an
explicit tape (`Rng`) threaded through every sampling call.  The handful
of transcendental library routines the code calls (`np.sqrt`, `np.log`,
`scipy.stats.norm.cdf/pdf`, Python's `2 ** x`) are collected in a
`MathPrims` record of rational-valued functions over which the whole
development is parametric; concrete instantiations used in witnesses
agree with the true real-valued functions at every point at which a
witness actually evaluates them (these points are noted at each
instantiation).  The anomaly scorers themselves live in the external
`pysad_rust` package and are out of scope; they are modelled by an
oracle function from (variant, construction configuration, inputs seen
since construction) to the raw score, which captures exactly the
`fitScorePartial` interface contract.
-/

/-- Rational mean of a list, `np.mean`; `0` on the empty list (unreachable
in the program: the pool is nonempty). -/
def npMean (l : List ℚ) : ℚ := l.sum / l.length

/-- Population variance `(1/n) Σ (x - mean)²`; `np.std` is its square
root, so `np.std l = 0` iff `npVar l = 0` and `np.std l > 0` iff
`npVar l > 0`, which is how the code's std comparisons are embedded. -/
def npVar (l : List ℚ) : ℚ := ((l.map (fun x => (x - npMean l) ^ 2)).sum) / l.length

/-- `np.clip x lo hi = np.minimum(hi, np.maximum(lo, x))`. -/
def npClip (x lo hi : ℚ) : ℚ := min hi (max lo x)

/-- Insertion step for an ascending insertion sort on rationals. -/
def insertAsc (x : ℚ) : List ℚ → List ℚ
  | [] => [x]
  | y :: ys => if x ≤ y then x :: y :: ys else y :: insertAsc x ys

/-- Ascending sort of a rational list (used for the median). -/
def sortAsc (l : List ℚ) : List ℚ := l.foldr insertAsc []

/-- `np.median`: middle element of the sorted list for odd length, mean of
the two middle elements for even length; `0` for the empty list
(NumPy yields NaN there; the program never reaches it with a
nonempty pool). -/
def npMedian (l : List ℚ) : ℚ :=
  let s := sortAsc l
  if l.length % 2 = 1 then s.getD (l.length / 2) 0
  else (s.getD (l.length / 2 - 1) 0 + s.getD (l.length / 2) 0) / 2

/-- `np.argmin`: index of the first minimal element (`0` for `[]`,
unreachable: the pool is nonempty). -/
def argminIdx (l : List ℚ) : ℕ :=
  (l.enum.foldl (fun acc p => if p.2 < acc.2 then p else acc)
    ((0 : ℕ), l.headD 0)).1

/-- Insertion step for `argsortIdx`: orders by value, breaking ties by
index (`np.argsort` on the distinct-valued inputs the proofs use is
independent of the tie rule). -/
def insertRanked (x : ℕ × ℚ) : List (ℕ × ℚ) → List (ℕ × ℚ)
  | [] => [x]
  | y :: ys =>
    if x.2 < y.2 ∨ (x.2 = y.2 ∧ x.1 ≤ y.1) then x :: y :: ys
    else y :: insertRanked x ys

/-- `np.argsort`: indices that sort the list ascending. -/
def argsortIdx (l : List ℚ) : List ℕ :=
  (l.enum.foldr insertRanked []).map (·.1)

/-- Model of the transcendental library functions called by the code
(`np.sqrt`, `np.log`, `scipy.stats.norm.cdf`, `scipy.stats.norm.pdf`,
and Python's `2 ** x` as `exp2`).  The development is parametric in
this record; each concrete instantiation below agrees with the true
real-valued function at every input where a witness evaluates it. -/
structure MathPrims where
  sqrt : ℚ → ℚ
  log : ℚ → ℚ
  normCdf : ℚ → ℚ
  normPdf : ℚ → ℚ
  exp2 : ℚ → ℚ

/-- `2 ** q` for integral `q`, exact; used to instantiate
`MathPrims.exp2` honestly at the integer exponents the witnesses
use (Python's `2 ** (-avg)` is rational exactly when `avg` is an
integer). -/
def exp2Dyadic (q : ℚ) : ℚ := if q.den = 1 then (2 : ℚ) ^ q.num else 0

/-- Explicit tape standing for the module-level NumPy/`random` generator
seeded once in `AutoSAD.__init__`: `natAt` feeds the categorical /
index draws (`np.random.choice`), `ratAt` the continuous draws
(`truncnorm.rvs`), and `pos` is the number of draws consumed so far.
The generator's concrete pseudo-random values are irrelevant to every
claim; only that each draw is a pure function of the seed and of the
draw position. -/
structure Rng where
  pos : ℕ
  natAt : ℕ → ℕ
  ratAt : ℕ → ℚ

/-- Draw a natural number below `bound` and advance the tape. -/
def Rng.nextNat (r : Rng) (bound : ℕ) : ℕ × Rng :=
  (r.natAt r.pos % bound, { r with pos := r.pos + 1 })

/-- Draw a rational and advance the tape. -/
def Rng.nextRat (r : Rng) : ℚ × Rng :=
  (r.ratAt r.pos, { r with pos := r.pos + 1 })

/-- The tape derived from a seed, standing for
`random.seed(random_state); np.random.seed(random_state)`: a fixed
pure function of the seed (the true Mersenne Twister values are
irrelevant to every claim, only their functional dependence on the
seed). -/
def tapeOfSeed (seed : ℕ) : Rng :=
  ⟨0, fun i => (seed + i) * 2654435761 % 4294967296,
      fun i => ((seed + i) % 1000 : ℚ) / 1000⟩

/-! ## PostProcessor (the spec's ScoreNormalizer) -/

/-- State of `PostProcessor`: running min/max/sum/sum-of-squares/count
plus the bounded history of normalised scores.  The Python `±inf`
sentinels are represented by `count = 0` (before the first call both
comparisons against the sentinels succeed, so the first score becomes
both min and max, exactly as here). -/
structure PostProcessor where
  minV : ℚ
  maxV : ℚ
  sumV : ℚ
  sumSq : ℚ
  count : ℕ
  normalizedScores : List ℚ
  maxHistory : ℕ
deriving DecidableEq

/-- A fresh `PostProcessor()` (`max_history` defaults to 1000). -/
def PostProcessor.init : PostProcessor :=
  ⟨0, 0, 0, 0, 0, [], 1000⟩

/-- `PostProcessor.process`: update min/max/count/sum/sum-of-squares,
normalise to `(score - min) / (max - min)` (`0` when the span is
zero), append to the bounded history. -/
def PostProcessor.process (s : PostProcessor) (score : ℚ) :
    PostProcessor × ℚ :=
  let mn := if s.count = 0 then score else min s.minV score
  let mx := if s.count = 0 then score else max s.maxV score
  let count := s.count + 1
  let sum := s.sumV + score
  let sumSq := s.sumSq + score ^ 2
  let span := mx - mn
  let normalized := if span = 0 then 0 else (score - mn) / span
  let hist0 := s.normalizedScores ++ [normalized]
  let hist := if s.maxHistory < hist0.length then hist0.drop 1 else hist0
  (⟨mn, mx, sum, sumSq, count, hist, s.maxHistory⟩, normalized)

/-- `PostProcessor.mean`: `sum / count`, `0` when `count = 0`. -/
def PostProcessor.mean (s : PostProcessor) : ℚ :=
  if s.count = 0 then 0 else s.sumV / s.count

/-- Feed a list of raw scores through one `PostProcessor`, returning the
final state and the list of returned normalised scores. -/
def PostProcessor.processAll (s : PostProcessor) (scores : List ℚ) :
    PostProcessor × List ℚ :=
  scores.foldl (fun acc x =>
    let r := acc.1.process x
    (r.1, acc.2 ++ [r.2])) (s, [])

/-! ## MedianCorrelationRewardCalculator (the reward strategy this
variant constructs in `__init__`) -/

/-- State of `MedianCorrelationRewardCalculator`: a bounded FIFO history
of every arm's normalised score and of the per-step cross-arm median;
`nModels` is `None` until the first `update_scores` call. -/
structure MedianCorrCalc where
  windowSize : ℕ
  modelScores : List (List ℚ)
  medianScores : List ℚ
  nModels : Option ℕ
deriving DecidableEq

/-- A fresh `MedianCorrelationRewardCalculator()` (window 1000). -/
def MedianCorrCalc.init : MedianCorrCalc := ⟨1000, [], [], none⟩

/-- `update_scores`: on the first call fix `n_models` and allocate one
history per arm; append the cross-arm median and each arm's score;
evict the oldest entries once the window bound is exceeded. -/
def MedianCorrCalc.updateScores (rc : MedianCorrCalc)
    (normalizedScores : List ℚ) : MedianCorrCalc :=
  let rc :=
    if rc.modelScores = [] then
      { rc with nModels := some normalizedScores.length,
                modelScores := List.replicate normalizedScores.length [] }
    else rc
  let medianScores := rc.medianScores ++ [npMedian normalizedScores]
  let modelScores :=
    List.zipWith (fun l s => l ++ [s]) rc.modelScores normalizedScores
  if rc.windowSize < medianScores.length then
    { rc with medianScores := medianScores.drop 1,
              modelScores := modelScores.map (fun l => l.drop 1) }
  else
    { rc with medianScores := medianScores, modelScores := modelScores }

/-- Pearson correlation of two equal-length series as the code computes
it via `np.corrcoef`, with the square roots taken through the
`MathPrims` model (Lean's total `x / 0 = 0` stands for the code's
NaN-to-0 mapping). -/
def pearsonCorr (p : MathPrims) (xs ys : List ℚ) : ℚ :=
  let cov := npMean (List.zipWith (fun x y => (x - npMean xs) * (y - npMean ys)) xs ys)
  cov / (p.sqrt (npVar xs) * p.sqrt (npVar ys))

/-- `calculate_rewards`: zero rewards until an arm's history reaches 100
samples, else the absolute correlation of each arm's history with the
median history, `0` when either series has zero variance. -/
def MedianCorrCalc.calculateRewards (p : MathPrims) (rc : MedianCorrCalc) :
    List ℚ :=
  match rc.modelScores with
  | [] => match rc.nModels with
          | some n => List.replicate n 0
          | none => []
  | l₀ :: _ =>
    if l₀.length < 100 then List.replicate (rc.nModels.getD 0) 0
    else
      (List.range (rc.nModels.getD 0)).map (fun i =>
        let xs := rc.modelScores.getD i []
        if 0 < npVar xs ∧ 0 < npVar rc.medianScores then
          |pearsonCorr p xs rc.medianScores|
        else 0)

/-! ## BanditGate -/

/-- State of `BanditGate`: per-arm pull counts `n`, per-arm EWMA mean
reward, the global counter `t`, and the (mutable) decay factor. -/
structure BanditGate where
  n : List ℕ
  mean : List ℚ
  t : ℕ
  decay : ℚ
deriving DecidableEq

/-- `BanditGate(n_arms)` with the default decay `0.20`. -/
def BanditGate.init (nArms : ℕ) (decay : ℚ := 1/5) : BanditGate :=
  ⟨List.replicate nArms 0, List.replicate nArms 0, 0, decay⟩

/-- `BanditGate.update`: increment `t` and the arm's pull count and move
the arm's EWMA mean toward the reward with weight `1 - decay`. -/
def BanditGate.update (b : BanditGate) (armIdx : ℕ) (reward : ℚ) :
    BanditGate :=
  { b with
    t := b.t + 1
    n := b.n.set armIdx (b.n.getD armIdx 0 + 1)
    mean := b.mean.set armIdx
      ((1 - b.decay) * reward + b.decay * b.mean.getD armIdx 0) }

/-- The reset applied to one arm's bandit state when that arm is
mutated or replaced during evolution
(`self.bandit.mean[idx] = 0.0; self.bandit.n[idx] = 0`). -/
def BanditGate.reset (b : BanditGate) (idx : ℕ) : BanditGate :=
  { b with mean := b.mean.set idx 0, n := b.n.set idx 0 }

/-- The shared confidence term
`sqrt(2 * log(max(1, t)) / maximum(1, n))`, elementwise per arm. -/
def BanditGate.conf (p : MathPrims) (b : BanditGate) : List ℚ :=
  b.n.map (fun ni => p.sqrt (2 * p.log (max 1 (b.t : ℚ)) / max 1 (ni : ℚ)))

/-- First element of a list under `min` (`np.min`; `0` for `[]`,
unreachable with a nonempty pool). -/
def listMinD (l : List ℚ) : ℚ :=
  match l with
  | [] => 0
  | x :: xs => xs.foldl min x

/-- `BanditGate.ucb`: `mean + conf`, lower is better. -/
def BanditGate.ucb (p : MathPrims) (b : BanditGate) : List ℚ :=
  List.zipWith (· + ·) b.mean (b.conf p)

/-- `BanditGate.ei`: negated expected improvement against the best
(minimum) mean, `conf` as the standard-deviation proxy. -/
def BanditGate.ei (p : MathPrims) (b : BanditGate) : List ℚ :=
  let best := listMinD b.mean
  List.zipWith (fun mui ci =>
    let imp := best - mui
    let z := if 0 < ci then imp / ci else 0
    (-(imp * p.normCdf z + ci * p.normPdf z))) b.mean (b.conf p)

/-- `BanditGate.pi`: negated probability of improvement. -/
def BanditGate.pi (p : MathPrims) (b : BanditGate) : List ℚ :=
  let best := listMinD b.mean
  List.zipWith (fun mui ci =>
    let imp := best - mui
    let z := if 0 < ci then imp / ci else 0
    (-(p.normCdf z))) b.mean (b.conf p)

/-- The three acquisition strategies accepted by `BanditGate.acq`
(an unknown string raises `ValueError`; the closed enum makes that
case unrepresentable). -/
inductive Strategy | UCB | EI | PI
deriving DecidableEq

/-- `BanditGate.acq`: dispatch on the strategy. -/
def BanditGate.acq (p : MathPrims) (b : BanditGate) : Strategy → List ℚ
  | .UCB => b.ucb p
  | .EI => b.ei p
  | .PI => b.pi p

/-! ## Scorer variants, configurations and hyperparameter grids -/

/-- The closed set of scorer variants (`pysad_rust` classes) the pool
draws from. -/
inductive Variant
  | halfSpaceTrees
  | iForestASD
  | robustRandomCutForest
  | loda
  | onlineIsolationForest
deriving DecidableEq

/-- The class picked by `np.random.choice(types)` for a given index into
the `types` list of `random_model_with_params`. -/
def variantOfIdx : ℕ → Variant
  | 0 => .halfSpaceTrees
  | 1 => .iForestASD
  | 2 => .robustRandomCutForest
  | 3 => .loda
  | _ => .onlineIsolationForest

/-- A hyperparameter value: Python int, float, string, or one of the two
feature-scaling vectors (`feature_mins` / `feature_maxes`, possibly
`None`). -/
inductive HPValue
  | int (n : ℤ)
  | float (q : ℚ)
  | str (s : String)
  | featVec (v : Option (List ℚ))
deriving DecidableEq

/-- A `Configuration`: the parameter dict, as an insertion-ordered
association list (Python dicts preserve insertion order). -/
abbrev Config := List (String × HPValue)

/-- Dict assignment `c[k] = v`: overwrite in place when the key exists,
else append. -/
def setEntry (c : Config) (k : String) (v : HPValue) : Config :=
  if c.any (fun e => e.1 = k) then
    c.map (fun e => if e.1 = k then (k, v) else e)
  else c ++ [(k, v)]

/-- Dict lookup. -/
def getEntry (c : Config) (k : String) : Option HPValue :=
  (c.find? (fun e => e.1 = k)).map (·.2)

/-- `_get_hyperparameter_options()`: the per-variant candidate grids, in
the literal's key order. -/
def hyperparameterOptions : Variant → List (String × List HPValue)
  | .halfSpaceTrees =>
    [("num_trees", [.int 8, .int 16, .int 32, .int 64, .int 128]),
     ("max_depth", [.int 5, .int 8, .int 10, .int 12, .int 15]),
     ("window_size", [.int 50, .int 100, .int 150, .int 200, .int 250])]
  | .iForestASD =>
    [("window_size", [.int 512, .int 1024, .int 2048, .int 4096]),
     ("n_estimators", [.int 16, .int 32, .int 64, .int 128]),
     ("max_samples", [.int 64, .int 128, .int 256, .int 512]),
     ("contamination", [.float (5/100), .float (1/10), .float (15/100), .float (2/10)]),
     ("anomaly_rate_threshold", [.float (1/10), .float (2/10), .float (3/10), .float (4/10)])]
  | .robustRandomCutForest =>
    [("num_trees", [.int 8, .int 16, .int 32, .int 64, .int 128]),
     ("tree_size", [.int 64, .int 128, .int 256, .int 512]),
     ("shingle_size", [.int 1, .int 2, .int 3])]
  | .loda =>
    [("num_bins", [.int 50, .int 100, .int 150, .int 200]),
     ("num_random_cuts", [.int 5, .int 10, .int 25, .int 50])]
  | .onlineIsolationForest =>
    [("branching_factor", [.int 2, .int 3, .int 4]),
     ("split", [.str "axisparallel", .str "hyperplane"]),
     ("num_trees", [.int 8, .int 16, .int 32, .int 64, .int 128]),
     ("max_leaf_samples", [.int 16, .int 32, .int 64]),
     ("window_size", [.int 512, .int 1024, .int 2048, .int 4096]),
     ("growth_criterion", [.str "adaptive", .str "depth", .str "size"]),
     ("subsample", [.float (1/10), .float (1/4), .float (1/2), .float (3/4), .float 1])]

/-- The numeric content of an int/float hyperparameter value (`0` on the
non-numeric constructors, which the numeric branch never receives). -/
def HPValue.toRat : HPValue → ℚ
  | .int n => (n : ℚ)
  | .float q => q
  | _ => 0

/-- Whether `isinstance(current, (int, float))` holds. -/
def HPValue.isNumeric : HPValue → Bool
  | .int _ => true
  | .float _ => true
  | _ => false

/-- Whether the value is a Python `int` (chooses `int(round(new))`). -/
def HPValue.isInt : HPValue → Bool
  | .int _ => true
  | _ => false

/-- `min(candidates, key=lambda x: abs(x - target))`: the first candidate
at minimal distance from `target` (Python's `min` keeps the first of
several minimisers). -/
def snapToGrid (candidates : List HPValue) (target : ℚ) : HPValue :=
  match candidates with
  | [] => .int 0
  | c :: cs =>
    (cs.foldl (fun best x =>
      if |x.toRat - target| < |best.toRat - target| then x else best) c)

/-- `round` on an exact rational standing for Python's `round` (they
agree at every integral input, and the snapped value is always a grid
integer when this branch runs on the program's integer grids). -/
def pyRound (q : ℚ) : ℤ := round q

/-- `AutoSAD._pwhs(current, candidates, sigma)`: probabilistic weighted
hyperparameter sampling.  Numeric values draw a truncated normal
centred at `current` (the drawn value comes off the tape) and snap to
the nearest grid point, rounding when the current value is an int;
when the distribution is degenerate (`std(candidates) * sigma == 0`,
which makes `truncnorm.rvs` raise `ValueError`) it falls back to a
uniform grid draw.  Categorical values are a weighted choice over the
grid whose realised pick comes off the tape (every option has
positive probability since `0.5 ≤ p_keep ≤ 0.95` for the
program's `sigma ∈ [0.1, 2]`). -/
def pwhs (rng : Rng) (current : HPValue) (candidates : List HPValue)
    (sigma : ℚ) : HPValue × Rng :=
  if current.isNumeric then
    if npVar (candidates.map HPValue.toRat) = 0 ∨ sigma = 0 then
      let kr := rng.nextNat candidates.length
      (candidates.getD kr.1 (.int 0), kr.2)
    else
      let dr := rng.nextRat
      let snapped := snapToGrid candidates dr.1
      (if current.isInt then .int (pyRound snapped.toRat) else snapped, dr.2)
  else
    let kr := rng.nextNat candidates.length
    (candidates.getD kr.1 (.int 0), kr.2)

/-- A live scorer: its variant tag, the configuration it was constructed
from, and the instances fed to it since construction (the external
scorer's online state is a pure function of these, per the
`fitScorePartial` interface contract). -/
abbrev Scorer := Variant × Config × List (List ℚ)

/-- The scorer's variant tag (`type(model).__name__`). -/
def Scorer.variant (m : Scorer) : Variant := m.1

/-- The raw-score oracle type standing for the out-of-scope
`pysad_rust` scorers: variant, construction configuration, and the
inputs seen so far (including the current one) determine the raw
score returned by `fit_score_partial`. -/
abbrev ScoreOracle := Variant → Config → List (List ℚ) → ℚ

/-- One `model.fit_score_partial(X)` call through the oracle. -/
def Scorer.fitScoreStep (oracle : ScoreOracle) (m : Scorer)
    (X : List ℚ) : Scorer × ℚ :=
  let hist := m.2.2 ++ [X]
  ((m.1, m.2.1, hist), oracle m.1 m.2.1 hist)

/-- `random_model_with_params`: draw a variant uniformly, then a value
uniformly from each grid list (none of the grid keys is a
feature-scaling key, so the exclusion test in the source is vacuous),
prepend `random_state`, and append the feature vectors for
`HalfSpaceTrees`. -/
def randomModelWithParams (randomState : ℕ)
    (featureMins featureMaxes : Option (List ℚ)) (rng : Rng) :
    (Scorer × Config) × Rng :=
  let kr := rng.nextNat 5
  let v := variantOfIdx kr.1
  let opts := hyperparameterOptions v
  let start : Config × Rng := ([("random_state", .int randomState)], kr.2)
  let pr := opts.foldl (fun acc pv =>
    let jr := acc.2.nextNat pv.2.length
    (acc.1 ++ [(pv.1, pv.2.getD jr.1 (.int 0))], jr.2)) start
  let params :=
    if v = .halfSpaceTrees then
      pr.1 ++ [("feature_mins", .featVec featureMins),
               ("feature_maxes", .featVec featureMaxes)]
    else pr.1
  (((v, params, []), params), pr.2)

/-! ## The AutoSAD orchestrator -/

/-- The `AutoSAD` object's state: the fixed-size pool
(`models` / `model_params` / `scores`, one entry per arm), the bandit,
the reward calculator, the step counter, and the exploration spread.
The seeded generator it owns is threaded separately as an `Rng`. -/
structure AutoSAD where
  nModels : ℕ
  randomState : ℕ
  acqStrategy : Strategy
  featureMins : Option (List ℚ)
  featureMaxes : Option (List ℚ)
  models : List Scorer
  modelParams : List Config
  scores : List PostProcessor
  step : ℕ
  explorationStd : ℚ
  bandit : BanditGate
  rewardCalc : MedianCorrCalc

/-- `AutoSAD.mutate(model, params)`: copy the configuration, restamp
`random_state`, resample through `_pwhs` every grid parameter that is
present in `params` and is not a feature-scaling key (a grid
parameter absent from `params` is silently skipped by the
`if p in params` guard), re-attach the feature vectors for
`HalfSpaceTrees`, and construct a fresh scorer of the same variant.
`mutStep` is the body of the `for p, vals in opts.items()` loop. -/
def mutStep (sad : AutoSAD) (params : Config) (acc : Config × Rng)
    (pv : String × List HPValue) : Config × Rng :=
  match getEntry params pv.1 with
  | some cur =>
    if pv.1 = "feature_mins" ∨ pv.1 = "feature_maxes" then acc
    else
      let vr := pwhs acc.2 cur pv.2 sad.explorationStd
      (setEntry acc.1 pv.1 vr.1, vr.2)
  | none => acc

def AutoSAD.mutate (sad : AutoSAD) (m : Scorer) (params : Config)
    (rng : Rng) : (Scorer × Config) × Rng :=
  let opts := hyperparameterOptions m.variant
  let base := setEntry params "random_state" (.int sad.randomState)
  let fold := opts.foldl (mutStep sad params) (base, rng)
  let newParams :=
    if m.variant = .halfSpaceTrees then
      setEntry (setEntry fold.1 "feature_mins" (.featVec sad.featureMins))
        "feature_maxes" (.featVec sad.featureMaxes)
    else fold.1
  (((m.variant, newParams, []), newParams), fold.2)

/-- `_init_pool`: append freshly drawn random arms (each with a fresh
`PostProcessor`) until the pool holds `n_models` arms. -/
def initPool (randomState : ℕ) (fm fM : Option (List ℚ)) :
    ℕ → Rng → List Scorer × List Config × List PostProcessor × Rng
  | 0, rng => ([], [], [], rng)
  | Nat.succ k, rng =>
    let mp := randomModelWithParams randomState fm fM rng
    let rest := initPool randomState fm fM k mp.2
    (mp.1.1 :: rest.1, mp.1.2 :: rest.2.1,
     PostProcessor.init :: rest.2.2.1, rest.2.2.2)

/-- `AutoSAD.__init__`: seed the generator from `random_state`, build the
initial pool, and create the bandit (default decay `0.2`) and the
median-correlation reward calculator. -/
def mkAutoSAD (nModels randomState : ℕ) (acq : Strategy)
    (fm fM : Option (List ℚ)) : AutoSAD × Rng :=
  let rng := tapeOfSeed randomState
  let pool := initPool randomState fm fM nModels rng
  ({ nModels := nModels, randomState := randomState, acqStrategy := acq,
     featureMins := fm, featureMaxes := fM,
     models := pool.1, modelParams := pool.2.1, scores := pool.2.2.1,
     step := 0, explorationStd := 1,
     bandit := BanditGate.init nModels,
     rewardCalc := MedianCorrCalc.init }, pool.2.2.2)

/-- The body of `fit_score_partial` up to (and including) the step
increment and the selection of the active arm, before the evolution
check: score and normalise through every arm, feed the reward
calculator, convert each reward to the loss `1 - reward` and update
the bandit once per arm, then pick the arm minimising the acquisition
values.  Returns the updated state, the chosen arm index, and the
per-arm normalised scores of this instant. -/
def stepScores (oracle : ScoreOracle) (sad : AutoSAD) (X : List ℚ) :
    List (Scorer × PostProcessor × ℚ) :=
  List.zipWith (fun (m : Scorer) (s : PostProcessor) =>
    let mr := Scorer.fitScoreStep oracle m X
    let pr := s.process mr.2
    (mr.1, pr.1, pr.2)) sad.models sad.scores

def stepCore (oracle : ScoreOracle) (prims : MathPrims) (sad : AutoSAD)
    (X : List ℚ) : AutoSAD × ℕ × List ℚ :=
  let pairs := stepScores oracle sad X
  let models := pairs.map (·.1)
  let scores := pairs.map (·.2.1)
  let normalizedScores := pairs.map (·.2.2)
  let rc := sad.rewardCalc.updateScores normalizedScores
  let rewards := rc.calculateRewards prims
  let bandit := rewards.enum.foldl (fun b p => b.update p.1 (1 - p.2)) sad.bandit
  let arm := argminIdx (bandit.acq prims sad.acqStrategy)
  ({ sad with models := models, scores := scores, rewardCalc := rc,
              bandit := bandit, step := sad.step + 1 }, arm, normalizedScores)

/-- Step 1 of `_evolve`: the exploration/decay update.
`avg` is the mean over arms of each arm's `PostProcessor.mean()`
(the running mean of that arm's raw scores);
`exploration_std = clip(exploration_std * 2 ** (-avg), 0.1, 2.0)` and
`bandit.decay = max(0.01, bandit.decay * 2 ** (-avg))`. -/
def evolveDecay (prims : MathPrims) (sad : AutoSAD) : AutoSAD :=
  let avg := npMean (sad.scores.map PostProcessor.mean)
  { sad with
    explorationStd := npClip (sad.explorationStd * prims.exp2 (-avg)) (1/10) 2
    bandit := { sad.bandit with
                decay := max (1/100) (sad.bandit.decay * prims.exp2 (-avg)) } }

/-- Steps 2–3 of `_evolve`: rank all arms by acquisition value ascending,
and for each (source, target) pair of the top-half / bottom-half zip,
replace the target arm by a mutation of the source arm, resetting the
target's normaliser and bandit state (`ranking[-0:]` is the whole
list in Python, mirrored here; the zip with an empty top half is then
still empty). -/
def evolveMutation (prims : MathPrims) (sad : AutoSAD) (rng : Rng) :
    AutoSAD × Rng :=
  let ranking := argsortIdx (sad.bandit.acq prims sad.acqStrategy)
  let nTop := sad.nModels / 2
  let topIdx := ranking.take nTop
  let botIdx := if nTop = 0 then ranking else ranking.drop (ranking.length - nTop)
  (topIdx.zip botIdx).foldl (fun (acc : AutoSAD × Rng) st =>
    let s := acc.1
    let mp := s.mutate
      (s.models.getD st.1 ((Variant.halfSpaceTrees, [], []) : Scorer))
      (s.modelParams.getD st.1 []) acc.2
    ({ s with models := s.models.set st.2 mp.1.1,
              modelParams := s.modelParams.set st.2 mp.1.2,
              scores := s.scores.set st.2 PostProcessor.init,
              bandit := s.bandit.reset st.2 }, mp.2)) (sad, rng)

/-- Replacement of one arm by a freshly drawn random arm during the
diversity guard, with its normaliser and bandit state reset. -/
def replaceFresh (sad : AutoSAD) (idx : ℕ) (rng : Rng) : AutoSAD × Rng :=
  let mp :=
    randomModelWithParams sad.randomState sad.featureMins sad.featureMaxes rng
  ({ sad with models := sad.models.set idx mp.1.1,
              modelParams := sad.modelParams.set idx mp.1.2,
              scores := sad.scores.set idx PostProcessor.init,
              bandit := sad.bandit.reset idx }, mp.2)

/-- Indices (counting from `k`) at which a type list holds the variant
`t`. -/
def indicesOfFrom (t : Variant) : ℕ → List Variant → List ℕ
  | _, [] => []
  | k, x :: xs =>
    if x = t then k :: indicesOfFrom t (k + 1) xs
    else indicesOfFrom t (k + 1) xs

/-- Indices at which `types` holds the variant `t`
(`[i for i, tt in enumerate(types) if tt == t]`). -/
def indicesOf (types : List Variant) (t : Variant) : List ℕ :=
  indicesOfFrom t 0 types

/-- The distinct variants of a type list in first-occurrence order —
the iteration order of `Counter(types).items()`. -/
def firstOccur (l : List Variant) : List Variant :=
  l.foldl (fun acc v => if v ∈ acc then acc else acc ++ [v]) []

/-- Step 4 of `_evolve`, the diversity guard: over the snapshot of pool
variants taken after mutation, for every variant occupying strictly
more than 70% of the pool, replace each of its arms except the
first-listed one (`[...][1:]`) by a freshly drawn random arm. -/
def diversityGuard (sad : AutoSAD) (rng : Rng) : AutoSAD × Rng :=
  let types := sad.models.map Scorer.variant
  (firstOccur types).foldl (fun acc t =>
    if (7 : ℚ)/10 < (types.count t : ℚ) / (sad.nModels : ℚ) then
      ((indicesOf types t).drop 1).foldl
        (fun acc2 idx => replaceFresh acc2.1 idx acc2.2) acc
    else acc) (sad, rng)

/-- `AutoSAD._evolve`: decay update, then ranking-driven mutation, then
the diversity guard. -/
def evolve (prims : MathPrims) (sad : AutoSAD) (rng : Rng) :
    AutoSAD × Rng :=
  let s1 := evolveDecay prims sad
  let m := evolveMutation prims s1 rng
  diversityGuard m.1 m.2

/-- `AutoSAD.fit_score_partial(X)` (named `fitScoreOne` here): run the
per-instance body, fire `_evolve` exactly when the incremented step
counter is a multiple of 1000, and return the active arm's normalised
score for this instant (the arm was selected before the evolution
check, from the acquisition values of the just-updated bandit). -/
def AutoSAD.fitScoreOne (oracle : ScoreOracle) (prims : MathPrims)
    (sad : AutoSAD) (X : List ℚ) (rng : Rng) : ℚ × AutoSAD × Rng :=
  let core := stepCore oracle prims sad X
  let post := if core.1.step % 1000 = 0 then evolve prims core.1 rng
              else (core.1, rng)
  (core.2.2.getD core.2.1 0, post.1, post.2)

/-- Feed a whole input stream through `fit_score_partial`, collecting the
returned anomaly scores in order. -/
def runAutoSAD (oracle : ScoreOracle) (prims : MathPrims) :
    AutoSAD → Rng → List (List ℚ) → AutoSAD × Rng × List ℚ
  | sad, rng, [] => (sad, rng, [])
  | sad, rng, X :: rest =>
    let r := AutoSAD.fitScoreOne oracle prims sad X rng
    let rest' := runAutoSAD oracle prims r.2.1 r.2.2 rest
    (rest'.1, rest'.2.1, r.1 :: rest'.2.2)

/-- A complete run: construct the object from a seed and stream every
input through it, returning the score sequence and the final state. -/
def runFromSeed (oracle : ScoreOracle) (prims : MathPrims)
    (nModels seed : ℕ) (acq : Strategy) (fm fM : Option (List ℚ))
    (inputs : List (List ℚ)) : List ℚ × AutoSAD :=
  let (sad, rng) := mkAutoSAD nModels seed acq fm fM
  let r := runAutoSAD oracle prims sad rng inputs
  (r.2.2, r.1)

/-! ## Claim C1: normalisation bounds -/

/-- The returned normalised value `(x - mn)/(mx - mn)` (or `0` on zero
span) lies in `[0,1]` and vanishes exactly at `x = mn`, whenever
`mn ≤ x ≤ mx`. -/
lemma normalize_bounds (mn mx x : ℚ) (h1 : mn ≤ x) (h2 : x ≤ mx) :
    0 ≤ (if mx - mn = 0 then 0 else (x - mn) / (mx - mn)) ∧
    (if mx - mn = 0 then (0:ℚ) else (x - mn) / (mx - mn)) ≤ 1 ∧
    ((if mx - mn = 0 then (0:ℚ) else (x - mn) / (mx - mn)) = 0 ↔ x = mn) := by
  by_cases h : mx - mn = 0
  · have hxm : x = mn := le_antisymm (by linarith [sub_eq_zero.mp h]) h1
    simp [h, hxm]
  · have hpos : 0 < mx - mn := lt_of_le_of_ne (by linarith) (Ne.symm h)
    refine ⟨?_, ?_, ?_⟩
    · simp only [h, if_false]
      exact div_nonneg (by linarith) (le_of_lt hpos)
    · simp only [h, if_false]
      rw [div_le_one hpos]; linarith
    · simp only [h, if_false]
      rw [div_eq_zero_iff]
      constructor
      · rintro (hz | hz)
        · linarith [sub_eq_zero.mp hz]
        · exact absurd hz h
      · intro hx; left; rw [hx]; ring

/-- C1 (amended): for every state and raw score, the value returned by
`PostProcessor.process` lies in `[0, 1]`, and it equals `0` exactly
when the raw score equals the running minimum after the update.  (It
is `0` whenever `max = min` after the update — then the score is both
— but it can also be `0` with `max ≠ min`, so the claim's
biconditional with `max = min` does not hold; see the
counterexample.) -/
theorem process_unit_interval_and_zero_iff_min (s : PostProcessor) (x : ℚ) :
    0 ≤ (s.process x).2 ∧ (s.process x).2 ≤ 1 ∧
    ((s.process x).2 = 0 ↔ x = (s.process x).1.minV) := by
  have h1 : (if s.count = 0 then x else min s.minV x) ≤ x := by
    by_cases h : s.count = 0 <;> simp [h]
  have h2 : x ≤ (if s.count = 0 then x else max s.maxV x) := by
    by_cases h : s.count = 0 <;> simp [h]
  have key := normalize_bounds _ _ x h1 h2
  simpa [PostProcessor.process] using key

/-- C1 counterexample: after the raw-score sequence `[0, 1, 0]` the third
`process` call returns `0` although the running maximum (1) differs
from the running minimum (0), so "output equals 0 exactly when
`max == min`" is false in the only-if direction. -/
theorem process_zero_with_max_ne_min :
    ((PostProcessor.init.processAll [0, 1, 0]).2.getLast? = some 0) ∧
    (PostProcessor.init.processAll [0, 1, 0]).1.maxV ≠
      (PostProcessor.init.processAll [0, 1, 0]).1.minV := by
  norm_num [PostProcessor.processAll, PostProcessor.process, PostProcessor.init]

/-! ## Shared list lemmas and fold invariants -/

/-- `getD` after `set` at a different index is unchanged. -/
lemma getD_set_ne {α : Type} (l : List α) {i j : ℕ} (v d : α)
    (h : i ≠ j) : (l.set i v).getD j d = l.getD j d := by
  simp [List.getD_eq_getElem?_getD, List.getElem?_set_ne h]

/-- `getD` after `set` at the same index, when the default equals the
written value, is that value (in or out of bounds). -/
lemma getD_set_same {α : Type} (l : List α) (j : ℕ) (v : α) :
    (l.set j v).getD j v = v := by
  rcases lt_or_ge j l.length with h | h
  · simp [List.getD_eq_getElem?_getD, List.getElem?_set_self',
      List.getElem?_eq_getElem (by simpa using h)]
  · have hnone : (l.set j v)[j]? = none := by
      apply List.getElem?_eq_none
      simpa using h
    simp [List.getD_eq_getElem?_getD, hnone]

/-- `getD` of `replicate` with the replicated value as default. -/
lemma getD_replicate_self {α : Type} (n j : ℕ) (v : α) :
    (List.replicate n v).getD j v = v := by
  rcases lt_or_ge j n with h | h
  · simp [List.getD_eq_getElem?_getD, List.getElem?_replicate, h]
  · have hnone : (List.replicate n v)[j]? = none := by
      apply List.getElem?_eq_none
      simpa using h
    simp [List.getD_eq_getElem?_getD, hnone]

/-- A property preserved by every step of a left fold holds of the
fold. -/
lemma foldl_preserves {α β : Type} (f : α → β → α) (P : α → Prop)
    (hf : ∀ a x, P a → P (f a x)) :
    ∀ (l : List β) (a : α), P a → P (l.foldl f a) := by
  intro l
  induction l with
  | nil => intro a ha; simpa using ha
  | cons x xs ih =>
    intro a ha
    simp only [List.foldl_cons]
    exact ih _ (hf a x ha)

/-! ## Claim C2: bandit counter and never-pulled arms -/

/-- The bandit-state transitions the program performs: a per-arm update
(in `fit_score_partial`), the per-arm reset applied when an arm is
mutated or replaced in `_evolve`, and the decay reassignment at the
top of `_evolve`. -/
inductive BanditOp
  | upd (i : ℕ) (r : ℚ)
  | reset (i : ℕ)
  | setDecay (d : ℚ)

/-- Apply one bandit transition. -/
def BanditGate.applyOp (b : BanditGate) : BanditOp → BanditGate
  | .upd i r => b.update i r
  | .reset i => b.reset i
  | .setDecay d => { b with decay := d }

/-- Apply a sequence of bandit transitions. -/
def applyOps (b : BanditGate) (ops : List BanditOp) : BanditGate :=
  ops.foldl BanditGate.applyOp b

/-- Whether arm `j` has been pulled (updated) since its last reset,
starting from an initial pulled-flag `fl`. -/
def pulledFrom (j : ℕ) (fl : Bool) (ops : List BanditOp) : Bool :=
  ops.foldl (fun fl op => match op with
    | .upd i _ => fl || (i == j)
    | .reset i => if i == j then false else fl
    | .setDecay _ => fl) fl

/-- Whether arm `j` has been pulled since its creation or its last
reset. -/
def pulledSince (j : ℕ) (ops : List BanditOp) : Bool :=
  pulledFrom j false ops

/-- Invariant: while arm `j`'s pulled-flag stays false its pull count and
EWMA mean stay `0`. -/
lemma applyOps_untouched (j : ℕ) :
    ∀ (ops : List BanditOp) (b : BanditGate) (fl : Bool),
      pulledFrom j fl ops = false →
      (fl = false → b.n.getD j 0 = 0 ∧ b.mean.getD j 0 = 0) →
      (applyOps b ops).n.getD j 0 = 0 ∧ (applyOps b ops).mean.getD j 0 = 0 := by
  intro ops
  induction ops with
  | nil =>
    intro b fl hfl hb
    exact hb hfl
  | cons op rest ih =>
    intro b fl hfl hb
    cases op with
    | upd i r =>
      have hfl' : pulledFrom j (fl || (i == j)) rest = false := hfl
      refine ih (b.update i r) (fl || (i == j)) hfl' ?_
      intro hor
      have hfl0 : fl = false := by
        cases fl <;> simp_all
      have hij : (i == j) = false := by
        cases hio : (i == j) <;> simp_all
      have hne : i ≠ j := by simpa using hij
      have hbn := hb hfl0
      have e1 : (b.update i r).n.getD j 0 = b.n.getD j 0 := by
        simp only [BanditGate.update]
        exact getD_set_ne _ _ _ hne
      have e2 : (b.update i r).mean.getD j 0 = b.mean.getD j 0 := by
        simp only [BanditGate.update]
        exact getD_set_ne _ _ _ hne
      rw [e1, e2]
      exact hbn
    | reset i =>
      have hfl' : pulledFrom j (if i == j then false else fl) rest = false := hfl
      by_cases hij : i = j
      · subst hij
        refine ih (b.reset i) false (by simpa using hfl') ?_
        intro _
        have e1 : (b.reset i).n.getD i 0 = 0 := by
          simp only [BanditGate.reset]
          exact getD_set_same b.n i 0
        have e2 : (b.reset i).mean.getD i 0 = 0 := by
          simp only [BanditGate.reset]
          exact getD_set_same b.mean i 0
        exact ⟨e1, e2⟩
      · refine ih (b.reset i) fl (by simpa [hij] using hfl') ?_
        intro hfl0
        have hbn := hb hfl0
        have e1 : (b.reset i).n.getD j 0 = b.n.getD j 0 := by
          simp only [BanditGate.reset]
          exact getD_set_ne _ _ _ hij
        have e2 : (b.reset i).mean.getD j 0 = b.mean.getD j 0 := by
          simp only [BanditGate.reset]
          exact getD_set_ne _ _ _ hij
        rw [e1, e2]
        exact hbn
    | setDecay d =>
      exact ih _ fl hfl hb

/-- Shape coherence of an `AutoSAD` state: the pool lists and the bandit
arrays all have `n_models` entries, and the reward calculator is
either untouched or was initialised from this pool. -/
def Coherent (sad : AutoSAD) : Prop :=
  sad.models.length = sad.nModels ∧ sad.scores.length = sad.nModels ∧
  sad.modelParams.length = sad.nModels ∧
  sad.bandit.n.length = sad.nModels ∧ sad.bandit.mean.length = sad.nModels ∧
  (sad.rewardCalc.modelScores = [] ∨ sad.rewardCalc.nModels = some sad.nModels)

instance (sad : AutoSAD) : Decidable (Coherent sad) := by
  unfold Coherent; infer_instance

/-- `calculate_rewards` always returns one reward per arm recorded in the
calculator's `n_models` field. -/
lemma calcRewards_length (p : MathPrims) (rc : MedianCorrCalc) (n : ℕ)
    (h : rc.nModels = some n) : (rc.calculateRewards p).length = n := by
  unfold MedianCorrCalc.calculateRewards
  cases hms : rc.modelScores with
  | nil => simp [h]
  | cons l0 rest =>
    by_cases hl : l0.length < 100
    · simp [hl, h]
    · simp [hl, h]

/-- After `update_scores` from a coherent calculator state, `n_models`
records the length of the score vector just supplied. -/
lemma updateScores_nModels (rc : MedianCorrCalc) (ns : List ℚ)
    (h : rc.modelScores = [] ∨ rc.nModels = some ns.length) :
    (rc.updateScores ns).nModels = some ns.length := by
  unfold MedianCorrCalc.updateScores
  by_cases he : rc.modelScores = []
  · simp only [if_pos he]
    split <;> simp
  · rcases h with h | h
    · exact absurd h he
    · simp only [if_neg he]
      split <;> simp [h]

/-- Each bandit update of the per-arm loop increments `t` by one, so the
loop adds the number of rewards. -/
lemma banditFold_t (l : List (ℕ × ℚ)) :
    ∀ b : BanditGate,
      (l.foldl (fun b p => b.update p.1 (1 - p.2)) b).t = b.t + l.length := by
  induction l with
  | nil => intro b; simp
  | cons x xs ih =>
    intro b
    rw [List.foldl_cons, ih]
    have ht : (b.update x.1 (1 - x.2)).t = b.t + 1 := rfl
    rw [ht, List.length_cons]
    omega

/-- The state components that the mutation loop and diversity guard leave
unchanged (everything except the pool entries and the per-arm bandit
entries), together with the lengths of the pool lists and bandit
arrays: replacement is in place, never a resize. -/
structure EvolveInv (a b : AutoSAD) : Prop where
  nModels_eq : b.nModels = a.nModels
  randomState_eq : b.randomState = a.randomState
  acq_eq : b.acqStrategy = a.acqStrategy
  fmins_eq : b.featureMins = a.featureMins
  fmaxes_eq : b.featureMaxes = a.featureMaxes
  step_eq : b.step = a.step
  sigma_eq : b.explorationStd = a.explorationStd
  rc_eq : b.rewardCalc = a.rewardCalc
  bandit_t_eq : b.bandit.t = a.bandit.t
  bandit_decay_eq : b.bandit.decay = a.bandit.decay
  models_len : b.models.length = a.models.length
  params_len : b.modelParams.length = a.modelParams.length
  scores_len : b.scores.length = a.scores.length
  bn_len : b.bandit.n.length = a.bandit.n.length
  bmean_len : b.bandit.mean.length = a.bandit.mean.length

lemma evolveInv_refl (a : AutoSAD) : EvolveInv a a := by
  constructor <;> rfl

/-- One diversity-guard replacement preserves `EvolveInv`. -/
lemma replaceFresh_evolveInv (a b : AutoSAD) (idx : ℕ) (rng : Rng)
    (h : EvolveInv a b) : EvolveInv a (replaceFresh b idx rng).1 := by
  obtain ⟨e1, e2, e3, e4, e5, e6, e7, e8, e9, e10, e11, e12, e13, e14, e15⟩ := h
  constructor <;> simp [replaceFresh, BanditGate.reset, *]

/-- The diversity guard preserves `EvolveInv`. -/
lemma diversityGuard_evolveInv (sad : AutoSAD) (rng : Rng) :
    EvolveInv sad (diversityGuard sad rng).1 := by
  unfold diversityGuard
  refine foldl_preserves _ (fun acc : AutoSAD × Rng => EvolveInv sad acc.1)
    ?_ _ _ (evolveInv_refl sad)
  intro acc t hP
  dsimp only
  split
  · refine foldl_preserves _ (fun acc2 : AutoSAD × Rng => EvolveInv sad acc2.1)
      ?_ _ _ hP
    intro acc2 idx hP2
    exact replaceFresh_evolveInv sad acc2.1 idx acc2.2 hP2
  · exact hP

/-- The mutation loop preserves `EvolveInv`. -/
lemma evolveMutation_evolveInv (prims : MathPrims) (sad : AutoSAD)
    (rng : Rng) : EvolveInv sad (evolveMutation prims sad rng).1 := by
  unfold evolveMutation
  refine foldl_preserves _ (fun acc : AutoSAD × Rng => EvolveInv sad acc.1)
    ?_ _ _ (evolveInv_refl sad)
  intro acc st hP
  obtain ⟨e1, e2, e3, e4, e5, e6, e7, e8, e9, e10, e11, e12, e13, e14, e15⟩ := hP
  constructor <;> simp [BanditGate.reset, *]

/-- `EvolveInv` from the mutation loop through the diversity guard. -/
lemma evolveInv_trans (a b c : AutoSAD) (h1 : EvolveInv a b)
    (h2 : EvolveInv b c) : EvolveInv a c := by
  obtain ⟨e1, e2, e3, e4, e5, e6, e7, e8, e9, e10, e11, e12, e13, e14, e15⟩ := h1
  obtain ⟨f1, f2, f3, f4, f5, f6, f7, f8, f9, f10, f11, f12, f13, f14, f15⟩ := h2
  constructor <;> simp [*]

/-- `_evolve` never changes the bandit's global counter `t`. -/
lemma evolve_bandit_t (prims : MathPrims) (s : AutoSAD) (rng : Rng) :
    (evolve prims s rng).1.bandit.t = s.bandit.t := by
  unfold evolve
  have hdecay : (evolveDecay prims s).bandit.t = s.bandit.t := rfl
  have h1 := evolveMutation_evolveInv prims (evolveDecay prims s) rng
  have h2 := diversityGuard_evolveInv
    (evolveMutation prims (evolveDecay prims s) rng).1
    (evolveMutation prims (evolveDecay prims s) rng).2
  rw [h2.bandit_t_eq, h1.bandit_t_eq, hdecay]

/-- The per-arm triples list has one entry per arm. -/
lemma stepScores_length (oracle : ScoreOracle) (sad : AutoSAD) (X : List ℚ)
    (h1 : sad.models.length = sad.nModels)
    (h2 : sad.scores.length = sad.nModels) :
    (stepScores oracle sad X).length = sad.nModels := by
  unfold stepScores
  rw [List.length_zipWith, h1, h2, min_self]

/-- The bandit counter after the per-arm update loop of one instance:
`t` grows by one per reward, i.e. by the number of arms. -/
lemma stepCore_bandit_t (oracle : ScoreOracle) (prims : MathPrims)
    (sad : AutoSAD) (X : List ℚ) (h : Coherent sad) :
    (stepCore oracle prims sad X).1.bandit.t = sad.bandit.t + sad.nModels := by
  obtain ⟨h1, h2, h3, h4, h5, hrc⟩ := h
  have hns : ((stepScores oracle sad X).map
      (fun x => x.2.2)).length = sad.nModels := by
    rw [List.length_map, stepScores_length oracle sad X h1 h2]
  have hnm : (sad.rewardCalc.updateScores
      ((stepScores oracle sad X).map (fun x => x.2.2))).nModels =
      some sad.nModels := by
    rw [updateScores_nModels, hns]
    rcases hrc with hrc | hrc
    · exact Or.inl hrc
    · exact Or.inr (by rw [hrc, hns])
  unfold stepCore
  simp only
  rw [banditFold_t, List.enum_length, calcRewards_length prims _ _ hnm]

/-! ## Concrete instances used by witnesses -/

/-- Concrete transcendental primitives for witnesses.  They agree with
the true real functions at every point where a witnessed conclusion
depends on them: `exp2` is exact at all integral exponents
(`2 ** (-2) = 1/4`, `2 ** 0 = 1`), `log` is evaluated in witness
ranking computations only at `1` (true `ln 1 = 0`) because every
witness bandit state has `t = 0`, and `sqrt` only at `0` (true
`sqrt 0 = 0`).  `normCdf`/`normPdf` are never consulted (all witness
states use the UCB strategy). -/
def prims0 : MathPrims :=
  { sqrt := fun _ => 0, log := fun _ => 0, normCdf := fun _ => 0,
    normPdf := fun _ => 0, exp2 := exp2Dyadic }

/-- Concrete scorer oracle for witnesses: the raw score is the number of
instances the scorer has seen.  (No witnessed conclusion depends on
the particular scores.) -/
def oracle0 : ScoreOracle := fun _ _ h => (h.length : ℚ)

/-- All-zero tape. -/
def rng0 : Rng := ⟨0, fun _ => 0, fun _ => 0⟩

/-- Two LODA configurations for witness pools. -/
def cfgL1 : Config :=
  [("random_state", .int 52), ("num_bins", .int 50),
   ("num_random_cuts", .int 5)]

def cfgL2 : Config :=
  [("random_state", .int 52), ("num_bins", .int 100),
   ("num_random_cuts", .int 10)]

/-- A freshly initialised two-arm pool state (all bookkeeping at its
creation values, two LODA arms). -/
def st2 : AutoSAD :=
  { nModels := 2, randomState := 52, acqStrategy := .UCB,
    featureMins := none, featureMaxes := none,
    models := [(.loda, cfgL1, []), (.loda, cfgL2, [])],
    modelParams := [cfgL1, cfgL2],
    scores := [PostProcessor.init, PostProcessor.init],
    step := 0, explorationStd := 1,
    bandit := BanditGate.init 2, rewardCalc := MedianCorrCalc.init }

/-! ## Claim C2 -/

/-- C2 (amended): processing one instance through `fit_score_partial`
increases the bandit's global counter `t` by exactly `n_models` (one
`update` per arm), not by 1; and an arm that has never been pulled
since creation or since its last reset has pull count 0 and EWMA mean
reward 0. -/
theorem bandit_t_per_instance_and_never_pulled :
    (∀ (oracle : ScoreOracle) (prims : MathPrims) (sad : AutoSAD)
       (X : List ℚ) (rng : Rng), Coherent sad →
       (AutoSAD.fitScoreOne oracle prims sad X rng).2.1.bandit.t =
         sad.bandit.t + sad.nModels) ∧
    (∀ (nArms : ℕ) (decay : ℚ) (ops : List BanditOp) (j : ℕ),
       pulledSince j ops = false →
       (applyOps (BanditGate.init nArms decay) ops).n.getD j 0 = 0 ∧
       (applyOps (BanditGate.init nArms decay) ops).mean.getD j 0 = 0) := by
  constructor
  · intro oracle prims sad X rng hcoh
    unfold AutoSAD.fitScoreOne
    by_cases hc : (stepCore oracle prims sad X).1.step % 1000 = 0
    · simp only [hc, if_true]
      rw [evolve_bandit_t, stepCore_bandit_t oracle prims sad X hcoh]
    · simp only [hc, if_false]
      rw [stepCore_bandit_t oracle prims sad X hcoh]
  · intro nArms decay ops j hp
    refine applyOps_untouched j ops (BanditGate.init nArms decay) false hp ?_
    intro _
    constructor
    · exact getD_replicate_self nArms j 0
    · exact getD_replicate_self nArms j 0

/-- Witness for C2: the two-arm state `st2` is coherent and one processed
instance moves `t` from 0 to `n_models = 2`; and the bandit trace
[pull arm 1, reset arm 0] leaves arm 0 with zero pulls and zero
mean. -/
theorem bandit_t_per_instance_and_never_pulled_witness :
    (Coherent st2 ∧
     (AutoSAD.fitScoreOne oracle0 prims0 st2 [1] rng0).2.1.bandit.t =
       st2.bandit.t + st2.nModels) ∧
    (pulledSince 0 [BanditOp.upd 1 (1/2), BanditOp.reset 0] = false ∧
     (applyOps (BanditGate.init 2 (1/5))
       [BanditOp.upd 1 (1/2), BanditOp.reset 0]).n.getD 0 0 = 0 ∧
     (applyOps (BanditGate.init 2 (1/5))
       [BanditOp.upd 1 (1/2), BanditOp.reset 0]).mean.getD 0 0 = 0) := by
  have hcoh : Coherent st2 := ⟨rfl, rfl, rfl, rfl, rfl, Or.inl rfl⟩
  have hp : pulledSince 0 [BanditOp.upd 1 (1/2), BanditOp.reset 0] = false := rfl
  have h2 := bandit_t_per_instance_and_never_pulled.2 2 (1/5)
    [BanditOp.upd 1 (1/2), BanditOp.reset 0] 0 hp
  exact ⟨⟨hcoh,
    bandit_t_per_instance_and_never_pulled.1 oracle0 prims0 st2 [1] rng0 hcoh⟩,
    hp, h2.1, h2.2⟩

/-- C2 counterexample: with two arms, one processed instance moves the
bandit counter from 0 to 2, not to 1 — `update` (which increments
`t`) runs once per arm inside the per-instance loop. -/
theorem bandit_t_not_one_per_instance :
    (AutoSAD.fitScoreOne oracle0 prims0 st2 [1] rng0).2.1.bandit.t ≠
      st2.bandit.t + 1 := by
  norm_num [AutoSAD.fitScoreOne, stepCore, stepScores, Scorer.fitScoreStep,
    oracle0, prims0, st2, rng0, PostProcessor.process, PostProcessor.init,
    MedianCorrCalc.init, MedianCorrCalc.updateScores,
    MedianCorrCalc.calculateRewards, npMedian, sortAsc, insertAsc,
    BanditGate.init, BanditGate.update, BanditGate.acq, BanditGate.ucb,
    BanditGate.conf, argminIdx, cfgL1, cfgL2, List.enum, evolve,
    List.replicate_succ, List.zipWith_cons_cons, List.enumFrom_cons,
    List.enumFrom_nil, List.foldl_cons, List.foldl_nil]

/-! ## Claim C5: the evolution decay update -/

/-- Modelled from the spec's words, for comparison: the same update
formulas but with `avgReward` read as the pool's average *reward*,
i.e. the mean of the reward calculator's current per-arm rewards.
(`evolveDecay`, translated from the code, instead averages each
normaliser's running mean of raw scores.) -/
def evolveDecaySpec (prims : MathPrims) (sad : AutoSAD) : AutoSAD :=
  let avg := npMean (sad.rewardCalc.calculateRewards prims)
  { sad with
    explorationStd := npClip (sad.explorationStd * prims.exp2 (-avg)) (1/10) 2
    bandit := { sad.bandit with
                decay := max (1/100) (sad.bandit.decay * prims.exp2 (-avg)) } }

/-- C5 (amended): at every evolution trigger the code updates
`exploration_std` to `clip(exploration_std * 2 ** (-avg), 0.1, 2.0)`
and the bandit decay to `max(0.01, decay * 2 ** (-avg))`, where `avg`
is the mean over arms of the normaliser's running mean of *raw
scores* (`PostProcessor.mean`), not the pool's average reward; the
remaining evolution phases leave both values unchanged. -/
theorem evolve_decay_update (prims : MathPrims) (sad : AutoSAD) (rng : Rng) :
    (evolve prims sad rng).1.explorationStd =
      npClip (sad.explorationStd *
        prims.exp2 (-(npMean (sad.scores.map PostProcessor.mean)))) (1/10) 2 ∧
    (evolve prims sad rng).1.bandit.decay =
      max (1/100) (sad.bandit.decay *
        prims.exp2 (-(npMean (sad.scores.map PostProcessor.mean)))) := by
  unfold evolve
  have h1 := evolveMutation_evolveInv prims (evolveDecay prims sad) rng
  have h2 := diversityGuard_evolveInv
    (evolveMutation prims (evolveDecay prims sad) rng).1
    (evolveMutation prims (evolveDecay prims sad) rng).2
  constructor
  · rw [h2.sigma_eq, h1.sigma_eq]; rfl
  · rw [h2.bandit_decay_eq, h1.bandit_decay_eq]; rfl

/-- The normaliser state of one arm that has seen the single raw score
`2` (min = max = 2, sum 2, sum of squares 4, one observation,
normalised history `[0]`). -/
def pp2 : PostProcessor := ⟨2, 2, 2, 4, 1, [0], 1000⟩

/-- A coherent one-arm state whose normaliser mean is 2 while its current
reward is 0 (fewer than 100 samples in the reward window). -/
def st5 : AutoSAD :=
  { nModels := 1, randomState := 52, acqStrategy := .UCB,
    featureMins := none, featureMaxes := none,
    models := [(.loda, cfgL1, [[1]])], modelParams := [cfgL1],
    scores := [pp2], step := 57, explorationStd := 1,
    bandit := { n := [1], mean := [1], t := 1, decay := 1/5 },
    rewardCalc := ⟨1000, [[0]], [0], some 1⟩ }

/-- C5 counterexample: at `st5` the pool's average reward is 0 (reward
window below 100 samples) while the average of the normalisers' raw
means is 2, so the code's update gives
`exploration_std = clip(1 * 2^(-2)) = 1/4` whereas the claim's
formula with `avgReward` gives `clip(1 * 2^0) = 1`. -/
theorem evolve_sigma_ne_spec_avg_reward :
    (evolve prims0 st5 rng0).1.explorationStd ≠
      (evolveDecaySpec prims0 st5).explorationStd := by
  norm_num [evolve, evolveDecay, evolveDecaySpec, evolveMutation,
    diversityGuard, st5, pp2, prims0, npMean, npClip, PostProcessor.mean,
    exp2Dyadic, MedianCorrCalc.calculateRewards, firstOccur, indicesOf,
    indicesOfFrom, Scorer.variant, replaceFresh]

/-! ## Claim C7: evolution cadence -/

/-- `_evolve` never changes the step counter. -/
lemma evolve_step_eq (prims : MathPrims) (s : AutoSAD) (rng : Rng) :
    (evolve prims s rng).1.step = s.step := by
  unfold evolve
  have h1 := evolveMutation_evolveInv prims (evolveDecay prims s) rng
  have h2 := diversityGuard_evolveInv
    (evolveMutation prims (evolveDecay prims s) rng).1
    (evolveMutation prims (evolveDecay prims s) rng).2
  rw [h2.step_eq, h1.step_eq]
  rfl

/-- Each `fit_score_partial` call advances the step counter by exactly
one. -/
lemma fitScoreOne_step (oracle : ScoreOracle) (prims : MathPrims)
    (sad : AutoSAD) (X : List ℚ) (rng : Rng) :
    (AutoSAD.fitScoreOne oracle prims sad X rng).2.1.step = sad.step + 1 := by
  unfold AutoSAD.fitScoreOne
  by_cases hc : (stepCore oracle prims sad X).1.step % 1000 = 0
  · simp only [hc, if_true]
    rw [evolve_step_eq]
    rfl
  · simp only [hc, if_false]
    rfl

/-- C7: the step counter counts processed instances one-for-one, and
`fit_score_partial` applies `_evolve` on an instance exactly when the
incremented counter — the number of instances processed so far — is
divisible by 1000, i.e. at the positive multiples of the evolution
interval, and at no other step (the state is otherwise the plain
`stepCore` result and the generator is untouched). -/
theorem evolution_cadence :
    (∀ (oracle : ScoreOracle) (prims : MathPrims) (sad : AutoSAD)
       (X : List ℚ) (rng : Rng),
      ((sad.step + 1) % 1000 = 0 →
        AutoSAD.fitScoreOne oracle prims sad X rng =
          ((stepCore oracle prims sad X).2.2.getD
             (stepCore oracle prims sad X).2.1 0,
           evolve prims (stepCore oracle prims sad X).1 rng)) ∧
      ((sad.step + 1) % 1000 ≠ 0 →
        AutoSAD.fitScoreOne oracle prims sad X rng =
          ((stepCore oracle prims sad X).2.2.getD
             (stepCore oracle prims sad X).2.1 0,
           (stepCore oracle prims sad X).1, rng))) ∧
    (∀ (oracle : ScoreOracle) (prims : MathPrims) (inputs : List (List ℚ)),
      ∀ (sad : AutoSAD) (rng : Rng),
      (runAutoSAD oracle prims sad rng inputs).1.step =
        sad.step + inputs.length) := by
  constructor
  · intro oracle prims sad X rng
    have hstep : (stepCore oracle prims sad X).1.step = sad.step + 1 := rfl
    constructor
    · intro h
      simp only [AutoSAD.fitScoreOne]
      rw [hstep, if_pos h]
    · intro h
      simp only [AutoSAD.fitScoreOne]
      rw [hstep, if_neg h]
  · intro oracle prims inputs
    induction inputs with
    | nil => intro sad rng; simp [runAutoSAD]
    | cons X rest ih =>
      intro sad rng
      simp only [runAutoSAD]
      rw [ih, fitScoreOne_step, List.length_cons]
      omega

/-- Witness for C7: at a fresh state the first instance (counter 1) does
not trigger evolution; at a state with 999 processed instances the
next instance (counter 1000) does; and one instance advances the
fresh state's counter to 1. -/
theorem evolution_cadence_witness :
    ((0 + 1) % 1000 ≠ 0 ∧
     AutoSAD.fitScoreOne oracle0 prims0 st2 [1] rng0 =
       ((stepCore oracle0 prims0 st2 [1]).2.2.getD
          (stepCore oracle0 prims0 st2 [1]).2.1 0,
        (stepCore oracle0 prims0 st2 [1]).1, rng0)) ∧
    ((999 + 1) % 1000 = 0 ∧
     AutoSAD.fitScoreOne oracle0 prims0 { st2 with step := 999 } [1] rng0 =
       ((stepCore oracle0 prims0 { st2 with step := 999 } [1]).2.2.getD
          (stepCore oracle0 prims0 { st2 with step := 999 } [1]).2.1 0,
        evolve prims0
          (stepCore oracle0 prims0 { st2 with step := 999 } [1]).1 rng0)) ∧
    (runAutoSAD oracle0 prims0 st2 rng0 [[1]]).1.step = st2.step + 1 := by
  have h1 : ((0:ℕ) + 1) % 1000 ≠ 0 := by norm_num
  have h2 : ((999:ℕ) + 1) % 1000 = 0 := by norm_num
  refine ⟨⟨h1, ?_⟩, ⟨h2, ?_⟩, ?_⟩
  · exact (evolution_cadence.1 oracle0 prims0 st2 [1] rng0).2 h1
  · exact (evolution_cadence.1 oracle0 prims0 { st2 with step := 999 }
      [1] rng0).1 h2
  · have := evolution_cadence.2 oracle0 prims0 [[1]] st2 rng0
    simpa using this

/-! ## Claim C8: fixed pool size -/

/-- The per-arm bandit update loop never resizes the bandit arrays. -/
lemma banditFold_len (l : List (ℕ × ℚ)) :
    ∀ b : BanditGate,
      (l.foldl (fun b p => b.update p.1 (1 - p.2)) b).n.length = b.n.length ∧
      (l.foldl (fun b p => b.update p.1 (1 - p.2)) b).mean.length =
        b.mean.length := by
  induction l with
  | nil => intro b; exact ⟨rfl, rfl⟩
  | cons x xs ih =>
    intro b
    rw [List.foldl_cons]
    refine ⟨((ih _).1).trans ?_, ((ih _).2).trans ?_⟩
    · simp [BanditGate.update]
    · simp [BanditGate.update]

/-- One `fit_score_partial` body preserves coherence. -/
lemma stepCore_coherent (oracle : ScoreOracle) (prims : MathPrims)
    (sad : AutoSAD) (X : List ℚ) (h : Coherent sad) :
    Coherent (stepCore oracle prims sad X).1 := by
  obtain ⟨h1, h2, h3, h4, h5, hrc⟩ := h
  have hss := stepScores_length oracle sad X h1 h2
  have hns : ((stepScores oracle sad X).map (fun x => x.2.2)).length =
      sad.nModels := by rw [List.length_map, hss]
  have hnm : (sad.rewardCalc.updateScores
      ((stepScores oracle sad X).map (fun x => x.2.2))).nModels =
      some sad.nModels := by
    rw [updateScores_nModels, hns]
    rcases hrc with hrc | hrc
    · exact Or.inl hrc
    · exact Or.inr (by rw [hrc, hns])
  have hbl := banditFold_len
    (((sad.rewardCalc.updateScores
      ((stepScores oracle sad X).map (fun x => x.2.2))).calculateRewards
        prims).enum) sad.bandit
  refine ⟨?_, ?_, ?_, ?_, ?_, Or.inr hnm⟩
  · show ((stepScores oracle sad X).map (fun x => x.1)).length = sad.nModels
    rw [List.length_map, hss]
  · show ((stepScores oracle sad X).map (fun x => x.2.1)).length = sad.nModels
    rw [List.length_map, hss]
  · exact h3
  · exact hbl.1.trans h4
  · exact hbl.2.trans h5

/-- Transport of coherence along the untouched fields of an evolution
phase. -/
lemma coherent_of_evolveInv (a b : AutoSAD) (hinv : EvolveInv a b)
    (h : Coherent a) : Coherent b := by
  obtain ⟨h1, h2, h3, h4, h5, hrc⟩ := h
  refine ⟨?_, ?_, ?_, ?_, ?_, ?_⟩
  · rw [hinv.models_len, hinv.nModels_eq]; exact h1
  · rw [hinv.scores_len, hinv.nModels_eq]; exact h2
  · rw [hinv.params_len, hinv.nModels_eq]; exact h3
  · rw [hinv.bn_len, hinv.nModels_eq]; exact h4
  · rw [hinv.bmean_len, hinv.nModels_eq]; exact h5
  · rw [hinv.rc_eq, hinv.nModels_eq]; exact hrc

/-- `_evolve` preserves coherence. -/
lemma evolve_coherent (prims : MathPrims) (s : AutoSAD) (rng : Rng)
    (h : Coherent s) : Coherent (evolve prims s rng).1 := by
  obtain ⟨h1, h2, h3, h4, h5, hrc⟩ := h
  have hd : Coherent (evolveDecay prims s) := ⟨h1, h2, h3, h4, h5, hrc⟩
  unfold evolve
  exact coherent_of_evolveInv _ _
    (evolveInv_trans _ _ _
      (evolveMutation_evolveInv prims (evolveDecay prims s) rng)
      (diversityGuard_evolveInv
        (evolveMutation prims (evolveDecay prims s) rng).1
        (evolveMutation prims (evolveDecay prims s) rng).2)) hd

/-- `_evolve` preserves the configured pool size. -/
lemma evolve_nModels (prims : MathPrims) (s : AutoSAD) (rng : Rng) :
    (evolve prims s rng).1.nModels = s.nModels := by
  unfold evolve
  have h1 := evolveMutation_evolveInv prims (evolveDecay prims s) rng
  have h2 := diversityGuard_evolveInv
    (evolveMutation prims (evolveDecay prims s) rng).1
    (evolveMutation prims (evolveDecay prims s) rng).2
  rw [h2.nModels_eq, h1.nModels_eq]
  rfl

/-- One full `fit_score_partial` call preserves coherence and the
configured pool size. -/
lemma fitScoreOne_coherent (oracle : ScoreOracle) (prims : MathPrims)
    (sad : AutoSAD) (X : List ℚ) (rng : Rng) (h : Coherent sad) :
    Coherent (AutoSAD.fitScoreOne oracle prims sad X rng).2.1 ∧
    (AutoSAD.fitScoreOne oracle prims sad X rng).2.1.nModels =
      sad.nModels := by
  unfold AutoSAD.fitScoreOne
  by_cases hc : (stepCore oracle prims sad X).1.step % 1000 = 0
  · simp only [hc, if_true]
    refine ⟨evolve_coherent _ _ _ (stepCore_coherent oracle prims sad X h), ?_⟩
    rw [evolve_nModels]
    rfl
  · simp only [hc, if_false]
    exact ⟨stepCore_coherent oracle prims sad X h, rfl⟩

/-- A whole run preserves coherence and the configured pool size. -/
lemma runAutoSAD_coherent (oracle : ScoreOracle) (prims : MathPrims) :
    ∀ (inputs : List (List ℚ)) (sad : AutoSAD) (rng : Rng),
      Coherent sad →
      Coherent (runAutoSAD oracle prims sad rng inputs).1 ∧
      (runAutoSAD oracle prims sad rng inputs).1.nModels = sad.nModels := by
  intro inputs
  induction inputs with
  | nil => intro sad rng h; exact ⟨h, rfl⟩
  | cons X rest ih =>
    intro sad rng h
    simp only [runAutoSAD]
    have hone := fitScoreOne_coherent oracle prims sad X rng h
    have := ih (AutoSAD.fitScoreOne oracle prims sad X rng).2.1
      (AutoSAD.fitScoreOne oracle prims sad X rng).2.2 hone.1
    exact ⟨this.1, this.2.trans hone.2⟩

/-- `_init_pool` appends exactly the requested number of arms. -/
lemma initPool_lengths (rs : ℕ) (fm fM : Option (List ℚ)) :
    ∀ (k : ℕ) (rng : Rng),
      (initPool rs fm fM k rng).1.length = k ∧
      (initPool rs fm fM k rng).2.1.length = k ∧
      (initPool rs fm fM k rng).2.2.1.length = k := by
  intro k
  induction k with
  | zero => intro rng; exact ⟨rfl, rfl, rfl⟩
  | succ m ih =>
    intro rng
    have := ih (randomModelWithParams rs fm fM rng).2
    simp only [initPool, List.length_cons]
    exact ⟨by rw [this.1], by rw [this.2.1], by rw [this.2.2]⟩

/-- A freshly constructed `AutoSAD` is coherent. -/
lemma mkAutoSAD_coherent (n seed : ℕ) (acq : Strategy)
    (fm fM : Option (List ℚ)) :
    Coherent (mkAutoSAD n seed acq fm fM).1 := by
  have hp := initPool_lengths seed fm fM n (tapeOfSeed seed)
  exact ⟨hp.1, hp.2.2, hp.2.1,
    List.length_replicate n 0, List.length_replicate n 0, Or.inl rfl⟩

/-- C8: after any number of processed instances and evolution cycles, the
pool's three parallel lists (scorers, configurations, normalisers)
each contain exactly the `n_models` arms fixed at construction;
evolution replaces entries in place (`List.set`) and never resizes. -/
theorem pool_size_invariant (oracle : ScoreOracle) (prims : MathPrims)
    (n seed : ℕ) (acq : Strategy) (fm fM : Option (List ℚ))
    (inputs : List (List ℚ)) :
    (runAutoSAD oracle prims (mkAutoSAD n seed acq fm fM).1
      (mkAutoSAD n seed acq fm fM).2 inputs).1.models.length = n ∧
    (runAutoSAD oracle prims (mkAutoSAD n seed acq fm fM).1
      (mkAutoSAD n seed acq fm fM).2 inputs).1.modelParams.length = n ∧
    (runAutoSAD oracle prims (mkAutoSAD n seed acq fm fM).1
      (mkAutoSAD n seed acq fm fM).2 inputs).1.scores.length = n := by
  have h := runAutoSAD_coherent oracle prims inputs
    (mkAutoSAD n seed acq fm fM).1 (mkAutoSAD n seed acq fm fM).2
    (mkAutoSAD_coherent n seed acq fm fM)
  have hn : (mkAutoSAD n seed acq fm fM).1.nModels = n := rfl
  obtain ⟨⟨c1, c2, c3, _, _, _⟩, cn⟩ := h
  rw [hn] at cn
  exact ⟨by rw [c1, cn], by rw [c3, cn], by rw [c2, cn]⟩

/-! ## Claim C9: determinism -/

/-- C9: the whole run is a pure function of the seed and the input
stream: all randomness is drawn from the single generator seeded in
`__init__` (modelled by `tapeOfSeed`), the scorers are deterministic
given their configuration (which carries `random_state`) and their
input history, and no other state enters.  Two runs with equal seeds
and equal input streams therefore return bit-identical score
sequences and identical final states — in particular identical final
pool configurations. -/
theorem run_deterministic (oracle : ScoreOracle) (prims : MathPrims)
    (n : ℕ) (acq : Strategy) (fm fM : Option (List ℚ))
    (seed1 seed2 : ℕ) (inputs1 inputs2 : List (List ℚ))
    (hseed : seed1 = seed2) (hins : inputs1 = inputs2) :
    runFromSeed oracle prims n seed1 acq fm fM inputs1 =
      runFromSeed oracle prims n seed2 acq fm fM inputs2 := by
  subst hseed
  subst hins
  rfl

/-- Witness for C9 at seed 52 and a concrete two-instance stream. -/
theorem run_deterministic_witness :
    (52 : ℕ) = 52 ∧ ([[1], [2]] : List (List ℚ)) = [[1], [2]] ∧
    runFromSeed oracle0 prims0 2 52 .UCB none none [[1], [2]] =
      runFromSeed oracle0 prims0 2 52 .UCB none none [[1], [2]] :=
  ⟨rfl, rfl, run_deterministic oracle0 prims0 2 .UCB none none
    52 52 [[1], [2]] [[1], [2]] rfl rfl⟩

/-! ## Dictionary lemmas for `Config` -/

/-- Unfold one entry of a dict lookup. -/
lemma getEntry_cons (e : String × HPValue) (rest : Config) (k : String) :
    getEntry (e :: rest) k = if e.1 = k then some e.2 else getEntry rest k := by
  by_cases he : e.1 = k
  · simp [getEntry, List.find?_cons, he]
  · simp [getEntry, List.find?_cons, he]

lemma getEntry_nil (k : String) : getEntry [] k = none := rfl

/-- Dict lookup through an append. -/
lemma getEntry_append (c1 c2 : Config) (k : String) :
    getEntry (c1 ++ c2) k =
      (match getEntry c1 k with
       | some v => some v
       | none => getEntry c2 k) := by
  induction c1 with
  | nil => simp [getEntry_nil]
  | cons e rest ih =>
    rw [List.cons_append, getEntry_cons, getEntry_cons]
    by_cases he : e.1 = k
    · simp [he]
    · simp [he, ih]

/-- The key-presence test of `setEntry` agrees with lookup success. -/
lemma any_key_iff (c : Config) (k : String) :
    c.any (fun e => e.1 = k) = (getEntry c k).isSome := by
  induction c with
  | nil => rfl
  | cons e rest ih =>
    rw [List.any_cons, getEntry_cons]
    by_cases he : e.1 = k <;> simp [he, ih]

/-- In-place overwrite: looking up the overwritten key yields the new
value. -/
lemma getEntry_mapset_self (c : Config) (k : String) (v : HPValue)
    (h : (getEntry c k).isSome) :
    getEntry (c.map (fun e => if e.1 = k then (k, v) else e)) k = some v := by
  induction c with
  | nil => simp [getEntry_nil] at h
  | cons e rest ih =>
    rw [List.map_cons]
    by_cases he : e.1 = k
    · rw [if_pos he, getEntry_cons]
      simp
    · rw [if_neg he, getEntry_cons, if_neg he]
      rw [getEntry_cons, if_neg he] at h
      exact ih h

/-- In-place overwrite of one key does not disturb other keys. -/
lemma getEntry_mapset_ne (c : Config) (k : String) (v : HPValue)
    (k' : String) (h : k ≠ k') :
    getEntry (c.map (fun e => if e.1 = k then (k, v) else e)) k' =
      getEntry c k' := by
  induction c with
  | nil => simp
  | cons e rest ih =>
    rw [List.map_cons, getEntry_cons, getEntry_cons]
    by_cases he : e.1 = k
    · rw [if_pos he]
      have hne : ¬ ((k, v).1 = k') := h
      have hne' : ¬ e.1 = k' := by rw [he]; exact h
      rw [if_neg hne, if_neg hne']
      exact ih
    · rw [if_neg he]
      by_cases he' : e.1 = k' <;> simp [he', ih]

/-- `setEntry` then lookup at the same key yields the written value. -/
lemma getEntry_setEntry_self (c : Config) (k : String) (v : HPValue) :
    getEntry (setEntry c k v) k = some v := by
  unfold setEntry
  by_cases h : c.any (fun e => e.1 = k)
  · rw [if_pos h]
    refine getEntry_mapset_self c k v ?_
    rw [← any_key_iff]
    exact h
  · rw [if_neg h, getEntry_append]
    have hn : getEntry c k = none := by
      cases hg : getEntry c k with
      | none => rfl
      | some w =>
        exact absurd (by rw [any_key_iff, hg]; rfl : _ = true) h
    rw [hn]
    simp [getEntry_cons]

/-- `setEntry` at one key does not disturb other keys. -/
lemma getEntry_setEntry_ne (c : Config) (k : String) (v : HPValue)
    (k' : String) (h : k ≠ k') :
    getEntry (setEntry c k v) k' = getEntry c k' := by
  unfold setEntry
  by_cases hc : c.any (fun e => e.1 = k)
  · rw [if_pos hc]
    exact getEntry_mapset_ne c k v k' h
  · rw [if_neg hc, getEntry_append]
    cases hg : getEntry c k' with
    | some w => simp
    | none => simp [getEntry_cons, getEntry_nil, h]

/-! ## Mutation-loop lemmas (claims C6 and C10) -/

/-- No grid key collides with `random_state` or the feature-scaling
keys. -/
lemma grids_key_facts : ∀ (v : Variant) (pv : String × List HPValue),
    pv ∈ hyperparameterOptions v →
    pv.1 ≠ "random_state" ∧ pv.1 ≠ "feature_mins" ∧
    pv.1 ≠ "feature_maxes" := by
  intro v
  cases v <;> decide

/-- Each variant's grid has pairwise-distinct keys. -/
lemma grids_nodup : ∀ v : Variant,
    ((hyperparameterOptions v).map Prod.fst).Nodup := by
  intro v
  cases v <;> decide

/-- A grid list is never of mixed int/non-int values. -/
lemma grids_int_consistent : ∀ (v : Variant) (pv : String × List HPValue),
    pv ∈ hyperparameterOptions v →
    (∀ x ∈ pv.2, x.isInt = true) ∨ (∀ x ∈ pv.2, x.isInt = false) := by
  intro v
  cases v <;> decide

/-- One loop iteration for a different key leaves a lookup unchanged. -/
lemma mutStep_getEntry_ne (sad : AutoSAD) (params : Config)
    (acc : Config × Rng) (pv : String × List HPValue) (k : String)
    (h : pv.1 ≠ k) :
    getEntry ((mutStep sad params acc pv).1) k = getEntry acc.1 k := by
  unfold mutStep
  cases hge : getEntry params pv.1 with
  | none => rfl
  | some cur =>
    dsimp only
    by_cases hf : pv.1 = "feature_mins" ∨ pv.1 = "feature_maxes"
    · rw [if_pos hf]
    · rw [if_neg hf]
      exact getEntry_setEntry_ne _ _ _ _ h

/-- The mutation loop leaves keys outside the grid untouched. -/
lemma mutFold_getEntry_notmem (sad : AutoSAD) (params : Config) :
    ∀ (opts : List (String × List HPValue)) (acc : Config × Rng)
      (k : String), (∀ pv ∈ opts, pv.1 ≠ k) →
      getEntry ((opts.foldl (mutStep sad params) acc).1) k =
        getEntry acc.1 k := by
  intro opts
  induction opts with
  | nil => intro acc k _; rfl
  | cons pv rest ih =>
    intro acc k hk
    rw [List.foldl_cons]
    rw [ih _ k (fun qv hqv => hk qv (List.mem_cons_of_mem pv hqv))]
    exact mutStep_getEntry_ne sad params acc pv k (hk pv (List.mem_cons_self pv rest))

/-- The mutation loop silently skips every key absent from `params`. -/
lemma mutFold_getEntry_absent (sad : AutoSAD) (params : Config) :
    ∀ (opts : List (String × List HPValue)) (acc : Config × Rng)
      (k : String), getEntry params k = none →
      getEntry ((opts.foldl (mutStep sad params) acc).1) k =
        getEntry acc.1 k := by
  intro opts
  induction opts with
  | nil => intro acc k _; rfl
  | cons pv rest ih =>
    intro acc k hk
    rw [List.foldl_cons, ih _ k hk]
    by_cases hpk : pv.1 = k
    · unfold mutStep
      rw [hpk, hk]
    · exact mutStep_getEntry_ne sad params acc pv k hpk

/-- For a grid key present in `params`, the loop stores exactly one
`_pwhs` sample for it (drawn at that iteration's tape position). -/
lemma mutFold_getEntry_mem (sad : AutoSAD) (params : Config) :
    ∀ (opts : List (String × List HPValue)) (acc : Config × Rng)
      (k : String) (vals : List HPValue) (cur : HPValue),
      (opts.map Prod.fst).Nodup → (k, vals) ∈ opts →
      k ≠ "feature_mins" → k ≠ "feature_maxes" →
      getEntry params k = some cur →
      ∃ r : Rng, getEntry ((opts.foldl (mutStep sad params) acc).1) k =
        some (pwhs r cur vals sad.explorationStd).1 := by
  intro opts
  induction opts with
  | nil => intro acc k vals cur _ hmem; exact absurd hmem (List.not_mem_nil _)
  | cons pv rest ih =>
    intro acc k vals cur hnd hmem hf1 hf2 hcur
    have hnd1 : pv.1 ∉ rest.map Prod.fst := by
      rw [List.map_cons] at hnd
      exact (List.nodup_cons.mp hnd).1
    have hnd2 : (rest.map Prod.fst).Nodup := by
      rw [List.map_cons] at hnd
      exact (List.nodup_cons.mp hnd).2
    rw [List.foldl_cons]
    rcases List.mem_cons.mp hmem with heq | hrest
    · have hpk : pv.1 = k := by rw [← heq]
      have hvals : pv.2 = vals := by rw [← heq]
      have hkrest : ∀ qv ∈ rest, qv.1 ≠ k := by
        intro qv hqv hq
        exact hnd1 (by rw [hpk, ← hq]; exact List.mem_map_of_mem Prod.fst hqv)
      rw [mutFold_getEntry_notmem sad params rest _ k hkrest]
      unfold mutStep
      rw [hpk, hcur]
      have hnf : ¬ (k = "feature_mins" ∨ k = "feature_maxes") := by
        rintro (h | h)
        · exact hf1 h
        · exact hf2 h
      dsimp only
      rw [if_neg hnf]
      refine ⟨acc.2, ?_⟩
      rw [hvals]
      exact getEntry_setEntry_self _ _ _
    · exact ih _ k vals cur hnd2 hrest hf1 hf2 hcur

/-- An in-bounds `getD` is a member of the list. -/
lemma getD_mem {α : Type} (l : List α) (k : ℕ) (d : α)
    (h : k < l.length) : l.getD k d ∈ l := by
  rw [List.getD_eq_getElem?_getD, List.getElem?_eq_getElem h]
  exact List.getElem_mem h

/-- A fold whose step always returns either its accumulator or its list
element stays inside any superset of both. -/
lemma foldl_choice_mem {α : Type} (f : α → α → α)
    (hf : ∀ b x, f b x = b ∨ f b x = x) :
    ∀ (l : List α) (b : α) (S : List α), b ∈ S → (∀ x ∈ l, x ∈ S) →
      l.foldl f b ∈ S := by
  intro l
  induction l with
  | nil => intro b S hb _; exact hb
  | cons x xs ih =>
    intro b S hb hl
    rw [List.foldl_cons]
    refine ih (f b x) S ?_ (fun y hy => hl y (List.mem_cons_of_mem x hy))
    rcases hf b x with h | h
    · rw [h]; exact hb
    · rw [h]; exact hl x (List.mem_cons_self x xs)

/-- `min(candidates, key=...)` returns an element of `candidates`. -/
lemma snapToGrid_mem (cands : List HPValue) (t : ℚ) (h : cands ≠ []) :
    snapToGrid cands t ∈ cands := by
  cases cands with
  | nil => exact absurd rfl h
  | cons c cs =>
    unfold snapToGrid
    refine foldl_choice_mem _ ?_ cs c (c :: cs) (List.mem_cons_self c cs)
      (fun x hx => List.mem_cons_of_mem c hx)
    intro b x
    by_cases hc : |x.toRat - t| < |b.toRat - t|
    · right; rw [if_pos hc]
    · left; rw [if_neg hc]

/-- `_pwhs` always returns an element of the candidate grid (for the
program's grids: no grid mixes int with non-int values, so the
`int(round(new))` branch reproduces the chosen grid integer). -/
lemma pwhs_mem (rng : Rng) (cur : HPValue) (cands : List HPValue) (sigma : ℚ)
    (hne : cands ≠ [])
    (hhom : cur.isInt = true → ∀ x ∈ cands, x.isInt = true) :
    (pwhs rng cur cands sigma).1 ∈ cands := by
  have hlen : 0 < cands.length := List.length_pos.mpr hne
  unfold pwhs
  by_cases hnum : cur.isNumeric = true
  · rw [if_pos hnum]
    by_cases hdeg : npVar (cands.map HPValue.toRat) = 0 ∨ sigma = 0
    · rw [if_pos hdeg]
      exact getD_mem _ _ _ (Nat.mod_lt _ hlen)
    · rw [if_neg hdeg]
      dsimp only [Rng.nextRat]
      have hsm : snapToGrid cands (rng.ratAt rng.pos) ∈ cands :=
        snapToGrid_mem cands _ hne
      by_cases hint : cur.isInt = true
      · rw [if_pos hint]
        cases hs : snapToGrid cands (rng.ratAt rng.pos) with
        | int m =>
          have hr : pyRound (HPValue.toRat (.int m)) = m := by
            unfold pyRound HPValue.toRat
            exact round_intCast m
          rw [hr]
          rw [hs] at hsm
          exact hsm
        | float q =>
          have := hhom hint _ hsm
          rw [hs] at this
          simp [HPValue.isInt] at this
        | str s =>
          have := hhom hint _ hsm
          rw [hs] at this
          simp [HPValue.isInt] at this
        | featVec v =>
          have := hhom hint _ hsm
          rw [hs] at this
          simp [HPValue.isInt] at this
      · rw [if_neg hint]
        exact hsm
  · rw [if_neg hnum]
    exact getD_mem _ _ _ (Nat.mod_lt _ hlen)

/-- Lookups at non-feature keys see the mutation loop's result directly
(the only later writes are the two feature-vector keys for
`HalfSpaceTrees`). -/
lemma mutate_getEntry_nonfeature (sad : AutoSAD) (m : Scorer)
    (params : Config) (rng : Rng) (p : String)
    (hf1 : p ≠ "feature_mins") (hf2 : p ≠ "feature_maxes") :
    getEntry (AutoSAD.mutate sad m params rng).1.2 p =
      getEntry ((hyperparameterOptions m.variant).foldl (mutStep sad params)
        (setEntry params "random_state" (.int sad.randomState), rng)).1 p := by
  unfold AutoSAD.mutate
  dsimp only
  by_cases hv : m.variant = .halfSpaceTrees
  · rw [if_pos hv, getEntry_setEntry_ne _ _ _ _ (Ne.symm hf2),
      getEntry_setEntry_ne _ _ _ _ (Ne.symm hf1)]
  · rw [if_neg hv]

/-! ## Claim C6: absent parameters are skipped, present ones sampled -/

/-- C6 (amended): if a parameter of the variant's grid is absent from the
arm's current configuration, `mutate` silently skips it — no error is
raised and the returned configuration still lacks the key; every grid
parameter that is present (the feature-scaling keys aside) is
resampled through `_pwhs`. -/
theorem mutate_skips_absent_params :
    (∀ (sad : AutoSAD) (m : Scorer) (params : Config) (rng : Rng)
       (p : String) (vals : List HPValue),
       (p, vals) ∈ hyperparameterOptions m.variant →
       getEntry params p = none →
       getEntry (AutoSAD.mutate sad m params rng).1.2 p = none) ∧
    (∀ (sad : AutoSAD) (m : Scorer) (params : Config) (rng : Rng)
       (p : String) (vals : List HPValue) (cur : HPValue),
       (p, vals) ∈ hyperparameterOptions m.variant →
       getEntry params p = some cur →
       ∃ r : Rng, getEntry (AutoSAD.mutate sad m params rng).1.2 p =
         some (pwhs r cur vals sad.explorationStd).1) := by
  constructor
  · intro sad m params rng p vals hmem habs
    have facts := grids_key_facts m.variant (p, vals) hmem
    rw [mutate_getEntry_nonfeature sad m params rng p facts.2.1 facts.2.2,
      mutFold_getEntry_absent sad params _ _ p habs,
      getEntry_setEntry_ne _ _ _ _ (Ne.symm facts.1)]
    exact habs
  · intro sad m params rng p vals cur hmem hcur
    have facts := grids_key_facts m.variant (p, vals) hmem
    obtain ⟨r, hr⟩ := mutFold_getEntry_mem sad params
      (hyperparameterOptions m.variant)
      (setEntry params "random_state" (.int sad.randomState), rng)
      p vals cur (grids_nodup m.variant) hmem facts.2.1 facts.2.2 hcur
    refine ⟨r, ?_⟩
    rw [mutate_getEntry_nonfeature sad m params rng p facts.2.1 facts.2.2]
    exact hr

/-- A LODA configuration that lacks the grid parameter `num_bins`. -/
def pL : Config :=
  [("random_state", .int 52), ("num_random_cuts", .int 10)]

/-- Witness for C6 at a concrete LODA arm whose configuration lacks
`num_bins` but has `num_random_cuts`. -/
theorem mutate_skips_absent_params_witness :
    (("num_bins", [HPValue.int 50, .int 100, .int 150, .int 200]) ∈
       hyperparameterOptions (Scorer.variant (Variant.loda, cfgL1, [])) ∧
     getEntry pL "num_bins" = none ∧
     getEntry (AutoSAD.mutate st2 (Variant.loda, cfgL1, []) pL rng0).1.2
       "num_bins" = none) ∧
    (getEntry pL "num_random_cuts" = some (.int 10) ∧
     ∃ r : Rng,
       getEntry (AutoSAD.mutate st2 (Variant.loda, cfgL1, []) pL rng0).1.2
         "num_random_cuts" =
       some (pwhs r (.int 10) [HPValue.int 5, .int 10, .int 25, .int 50]
         st2.explorationStd).1) := by
  have hm1 : ("num_bins", [HPValue.int 50, .int 100, .int 150, .int 200]) ∈
      hyperparameterOptions (Scorer.variant (Variant.loda, cfgL1, [])) := by
    decide
  have hm2 : ("num_random_cuts", [HPValue.int 5, .int 10, .int 25, .int 50]) ∈
      hyperparameterOptions (Scorer.variant (Variant.loda, cfgL1, [])) := by
    decide
  have h1 : getEntry pL "num_bins" = none := by decide
  have h2 : getEntry pL "num_random_cuts" = some (.int 10) := by decide
  exact ⟨⟨hm1, h1,
    mutate_skips_absent_params.1 st2 (Variant.loda, cfgL1, []) pL rng0
      "num_bins" [HPValue.int 50, .int 100, .int 150, .int 200] hm1 h1⟩,
    h2,
    mutate_skips_absent_params.2 st2 (Variant.loda, cfgL1, []) pL rng0
      "num_random_cuts" [HPValue.int 5, .int 10, .int 25, .int 50]
      (.int 10) hm2 h2⟩

/-- C6 counterexample: `mutate` on an arm whose configuration lacks the
grid parameter `num_bins` does not abort: it returns an ordinary
configuration that still lacks `num_bins` (the `if p in params` guard
silently skips it) while the present parameter `num_random_cuts` was
processed. -/
theorem mutate_missing_param_not_fatal :
    getEntry (AutoSAD.mutate st2 (Variant.loda, cfgL1, []) pL rng0).1.2
      "num_bins" = none ∧
    (getEntry (AutoSAD.mutate st2 (Variant.loda, cfgL1, []) pL rng0).1.2
      "num_random_cuts").isSome = true := by
  have habs : getEntry pL "num_bins" = none := by decide
  have hcur : getEntry pL "num_random_cuts" = some (.int 10) := by decide
  constructor
  · rw [mutate_getEntry_nonfeature st2 (Variant.loda, cfgL1, []) pL rng0
      "num_bins" (by decide) (by decide),
      mutFold_getEntry_absent st2 pL _ _ "num_bins" habs,
      getEntry_setEntry_ne _ _ _ _ (by decide)]
    exact habs
  · obtain ⟨r, hr⟩ := mutFold_getEntry_mem st2 pL
      (hyperparameterOptions (Scorer.variant (Variant.loda, cfgL1, [])))
      (setEntry pL "random_state" (.int st2.randomState), rng0)
      "num_random_cuts" [HPValue.int 5, .int 10, .int 25, .int 50]
      (.int 10) (by decide) (by decide) (by decide) (by decide) hcur
    rw [mutate_getEntry_nonfeature st2 (Variant.loda, cfgL1, []) pL rng0
      "num_random_cuts" (by decide) (by decide), hr]
    rfl

/-! ## Claim C10: mutation preserves the variant and stays on the grid -/

/-- C10: `mutate` preserves the scorer variant (the fresh scorer and the
new configuration belong to the source arm's variant), and every
resampled grid parameter's new value is an element of the variant's
candidate grid — numeric draws are snapped to a grid point (integer
grids come back through `int(round(.))` unchanged), categorical draws
are chosen among the grid options. -/
theorem mutate_preserves_variant_and_grid :
    (∀ (sad : AutoSAD) (m : Scorer) (params : Config) (rng : Rng),
      ((AutoSAD.mutate sad m params rng).1.1).1 = m.variant) ∧
    (∀ (sad : AutoSAD) (m : Scorer) (params : Config) (rng : Rng)
       (p : String) (vals : List HPValue) (cur : HPValue),
       (p, vals) ∈ hyperparameterOptions m.variant →
       getEntry params p = some cur → cur ∈ vals →
       ∃ v ∈ vals,
         getEntry (AutoSAD.mutate sad m params rng).1.2 p = some v) := by
  constructor
  · intro sad m params rng
    rfl
  · intro sad m params rng p vals cur hmem hcur hcv
    have facts := grids_key_facts m.variant (p, vals) hmem
    obtain ⟨r, hr⟩ := mutFold_getEntry_mem sad params
      (hyperparameterOptions m.variant)
      (setEntry params "random_state" (.int sad.randomState), rng)
      p vals cur (grids_nodup m.variant) hmem facts.2.1 facts.2.2 hcur
    refine ⟨(pwhs r cur vals sad.explorationStd).1, ?_, ?_⟩
    · have hne : vals ≠ [] := by
        intro h
        rw [h] at hcv
        exact List.not_mem_nil _ hcv
      refine pwhs_mem r cur vals sad.explorationStd hne ?_
      intro hint
      rcases grids_int_consistent m.variant (p, vals) hmem with hall | hnone
      · exact hall
      · have := hnone cur hcv
        rw [hint] at this
        simp at this
    · rw [mutate_getEntry_nonfeature sad m params rng p facts.2.1 facts.2.2]
      exact hr

/-- Witness for C10 at a concrete LODA arm: the variant is preserved and
the resampled `num_bins` value is one of the grid's candidates. -/
theorem mutate_preserves_variant_and_grid_witness :
    (AutoSAD.mutate st2 (Variant.loda, cfgL1, []) cfgL1 rng0).1.1.1 =
      Scorer.variant (Variant.loda, cfgL1, []) ∧
    (("num_bins", [HPValue.int 50, .int 100, .int 150, .int 200]) ∈
       hyperparameterOptions (Scorer.variant (Variant.loda, cfgL1, [])) ∧
     getEntry cfgL1 "num_bins" = some (.int 50) ∧
     HPValue.int 50 ∈ [HPValue.int 50, .int 100, .int 150, .int 200] ∧
     ∃ v ∈ [HPValue.int 50, .int 100, .int 150, .int 200],
       getEntry (AutoSAD.mutate st2 (Variant.loda, cfgL1, []) cfgL1
         rng0).1.2 "num_bins" = some v) := by
  refine ⟨mutate_preserves_variant_and_grid.1 st2 (Variant.loda, cfgL1, [])
    cfgL1 rng0, ?_, ?_, ?_, ?_⟩
  · decide
  · decide
  · decide
  · exact mutate_preserves_variant_and_grid.2 st2 (Variant.loda, cfgL1, [])
      cfgL1 rng0 "num_bins" [HPValue.int 50, .int 100, .int 150, .int 200]
      (.int 50) (by decide) (by decide) (by decide)

/-! ## Diversity-guard analysis (claims C3 and C4) -/

/-- The guard's firing condition for a variant over the post-mutation
type snapshot: the variant occupies strictly more than 70% of the
pool. -/
def guardFires (types : List Variant) (n : ℕ) (t : Variant) : Prop :=
  (7 : ℚ)/10 < (types.count t : ℚ) / (n : ℚ)

instance (types : List Variant) (n : ℕ) (t : Variant) :
    Decidable (guardFires types n t) := by
  unfold guardFires; infer_instance

/-- The indices the guard replaces, in replacement order: for each fired
variant (in `Counter` iteration order) all its indices except the
first. -/
def guardReplaced (types : List Variant) (n : ℕ) : List ℕ :=
  (firstOccur types).foldl (fun acc t =>
    if (7 : ℚ)/10 < (types.count t : ℚ) / (n : ℚ) then
      acc ++ (indicesOf types t).drop 1
    else acc) []

/-- Accumulator decomposition of the if-append fold. -/
lemma foldl_ifappend_acc {α : Type} (c : α → Prop) [DecidablePred c]
    (f : α → List ℕ) :
    ∀ (ts : List α) (L0 : List ℕ),
      ts.foldl (fun L t => if c t then L ++ f t else L) L0 =
        L0 ++ ts.foldl (fun L t => if c t then L ++ f t else L) [] := by
  intro ts
  induction ts with
  | nil => intro L0; simp
  | cons t rest ih =>
    intro L0
    rw [List.foldl_cons, List.foldl_cons]
    by_cases hc : c t
    · rw [if_pos hc, if_pos hc, ih (L0 ++ f t), ih ([] ++ f t)]
      simp [List.append_assoc]
    · rw [if_neg hc, if_neg hc, ih L0]

/-- The guard's two-level fold equals a flat fold over the concatenated
replacement index list. -/
lemma foldl_guard_flatten {α β : Type} (c : α → Prop) [DecidablePred c]
    (f : α → List ℕ) (g : β → ℕ → β) :
    ∀ (ts : List α) (acc : β),
      ts.foldl (fun a t => if c t then (f t).foldl g a else a) acc =
        (ts.foldl (fun L t => if c t then L ++ f t else L) []).foldl g acc := by
  intro ts
  induction ts with
  | nil => intro acc; rfl
  | cons t rest ih =>
    intro acc
    rw [List.foldl_cons, List.foldl_cons]
    by_cases hc : c t
    · rw [if_pos hc, if_pos hc, ih, foldl_ifappend_acc c f rest ([] ++ f t)]
      rw [List.nil_append, List.foldl_append]
    · rw [if_neg hc, if_neg hc, ih]

/-- `diversityGuard` as the flat fold of single replacements over
`guardReplaced`. -/
lemma diversityGuard_eq_flat (sad : AutoSAD) (rng : Rng) :
    diversityGuard sad rng =
      (guardReplaced (sad.models.map Scorer.variant) sad.nModels).foldl
        (fun acc idx => replaceFresh acc.1 idx acc.2) (sad, rng) := by
  unfold diversityGuard guardReplaced
  exact foldl_guard_flatten _ _ _ (firstOccur (sad.models.map Scorer.variant))
    (sad, rng)

/-- Membership in the if-append fold from the empty accumulator. -/
lemma mem_foldl_ifappend {α : Type} (c : α → Prop) [DecidablePred c]
    (f : α → List ℕ) :
    ∀ (ts : List α) (i : ℕ),
      (i ∈ ts.foldl (fun L t => if c t then L ++ f t else L) []) ↔
        ∃ t ∈ ts, c t ∧ i ∈ f t := by
  intro ts
  induction ts with
  | nil => intro i; simp
  | cons t rest ih =>
    intro i
    rw [List.foldl_cons]
    by_cases hc : c t
    · rw [if_pos hc, foldl_ifappend_acc c f rest ([] ++ f t), List.nil_append,
        List.mem_append]
      constructor
      · rintro (hi | hi)
        · exact ⟨t, List.mem_cons_self t rest, hc, hi⟩
        · obtain ⟨u, hu, hcu, hiu⟩ := (ih i).mp hi
          exact ⟨u, List.mem_cons_of_mem t hu, hcu, hiu⟩
      · rintro ⟨u, hu, hcu, hiu⟩
        rcases List.mem_cons.mp hu with rfl | hu
        · exact Or.inl hiu
        · exact Or.inr ((ih i).mpr ⟨u, hu, hcu, hiu⟩)
    · rw [if_neg hc]
      rw [ih i]
      constructor
      · rintro ⟨u, hu, hcu, hiu⟩
        exact ⟨u, List.mem_cons_of_mem t hu, hcu, hiu⟩
      · rintro ⟨u, hu, hcu, hiu⟩
        rcases List.mem_cons.mp hu with rfl | hu
        · exact absurd hcu hc
        · exact ⟨u, hu, hcu, hiu⟩

/-- Membership in the guard's replacement index list. -/
lemma mem_guardReplaced (types : List Variant) (n : ℕ) (i : ℕ) :
    i ∈ guardReplaced types n ↔
      ∃ t ∈ firstOccur types, guardFires types n t ∧
        i ∈ (indicesOf types t).drop 1 := by
  unfold guardReplaced guardFires
  exact mem_foldl_ifappend _ _ (firstOccur types) i

/-- Index characterisation of `indicesOfFrom`. -/
lemma indicesOfFrom_mem (t : Variant) :
    ∀ (l : List Variant) (k i : ℕ),
      i ∈ indicesOfFrom t k l ↔ (k ≤ i ∧ l.get? (i - k) = some t) := by
  intro l
  induction l with
  | nil =>
    intro k i
    simp [indicesOfFrom]
  | cons x xs ih =>
    intro k i
    unfold indicesOfFrom
    by_cases hx : x = t
    · rw [if_pos hx, List.mem_cons, ih (k + 1) i]
      constructor
      · rintro (rfl | ⟨hk, hg⟩)
        · refine ⟨le_refl i, ?_⟩
          rw [Nat.sub_self]
          simpa using hx
        · refine ⟨by omega, ?_⟩
          have hik : i - k = (i - (k + 1)) + 1 := by omega
          rw [hik]
          simpa using hg
      · rintro ⟨hk, hg⟩
        by_cases hik : i = k
        · exact Or.inl hik
        · refine Or.inr ⟨by omega, ?_⟩
          have h2 : i - k = (i - (k + 1)) + 1 := by omega
          rw [h2] at hg
          simpa using hg
    · rw [if_neg hx, ih (k + 1) i]
      constructor
      · rintro ⟨hk, hg⟩
        refine ⟨by omega, ?_⟩
        have h2 : i - k = (i - (k + 1)) + 1 := by omega
        rw [h2]
        simpa using hg
      · rintro ⟨hk, hg⟩
        by_cases hik : i = k
        · subst hik
          rw [Nat.sub_self] at hg
          simp at hg
          exact absurd hg hx
        · refine ⟨by omega, ?_⟩
          have h2 : i - k = (i - (k + 1)) + 1 := by omega
          rw [h2] at hg
          simpa using hg

/-- An index is listed for `t` exactly when the snapshot holds `t`
there. -/
lemma indicesOf_mem (types : List Variant) (t : Variant) (i : ℕ) :
    i ∈ indicesOf types t ↔ types.get? i = some t := by
  rw [indicesOf, indicesOfFrom_mem]
  simp

/-- `indicesOfFrom` lists as many indices as there are occurrences. -/
lemma indicesOfFrom_length (t : Variant) :
    ∀ (l : List Variant) (k : ℕ),
      (indicesOfFrom t k l).length = l.count t := by
  intro l
  induction l with
  | nil => intro k; rfl
  | cons x xs ih =>
    intro k
    unfold indicesOfFrom
    by_cases hx : x = t
    · rw [if_pos hx, List.length_cons, ih (k + 1), List.count_cons]
      simp [hx]
    · rw [if_neg hx, ih (k + 1), List.count_cons]
      simp [hx]

lemma indicesOf_length (types : List Variant) (t : Variant) :
    (indicesOf types t).length = types.count t :=
  indicesOfFrom_length t types 0

/-- All indices from `indicesOfFrom t k` are at least `k`. -/
lemma indicesOfFrom_ge (t : Variant) (l : List Variant) (k i : ℕ)
    (h : i ∈ indicesOfFrom t k l) : k ≤ i :=
  ((indicesOfFrom_mem t l k i).mp h).1

/-- The listed indices are pairwise distinct. -/
lemma indicesOfFrom_nodup (t : Variant) :
    ∀ (l : List Variant) (k : ℕ), (indicesOfFrom t k l).Nodup := by
  intro l
  induction l with
  | nil => intro k; exact List.nodup_nil
  | cons x xs ih =>
    intro k
    unfold indicesOfFrom
    by_cases hx : x = t
    · rw [if_pos hx]
      refine List.nodup_cons.mpr ⟨?_, ih (k + 1)⟩
      intro hk
      have := indicesOfFrom_ge t xs (k + 1) k hk
      omega
    · rw [if_neg hx]
      exact ih (k + 1)

lemma indicesOf_nodup (types : List Variant) (t : Variant) :
    (indicesOf types t).Nodup :=
  indicesOfFrom_nodup t types 0

/-- `firstOccur` lists exactly the variants present. -/
lemma mem_firstOccur (l : List Variant) (u : Variant) :
    u ∈ firstOccur l ↔ u ∈ l := by
  have key : ∀ (l : List Variant) (acc : List Variant) (x : Variant),
      x ∈ l.foldl (fun acc v => if v ∈ acc then acc else acc ++ [v]) acc ↔
        x ∈ acc ∨ x ∈ l := by
    intro l
    induction l with
    | nil => intro acc x; simp
    | cons v rest ih =>
      intro acc x
      rw [List.foldl_cons]
      by_cases hv : v ∈ acc
      · rw [if_pos hv, ih]
        constructor
        · rintro (h | h)
          · exact Or.inl h
          · exact Or.inr (List.mem_cons_of_mem v h)
        · rintro (h | h)
          · exact Or.inl h
          · rcases List.mem_cons.mp h with rfl | h
            · exact Or.inl hv
            · exact Or.inr h
      · rw [if_neg hv, ih]
        constructor
        · rintro (h | h)
          · rcases List.mem_append.mp h with h | h
            · exact Or.inl h
            · simp at h
              exact Or.inr (by rw [h]; exact List.mem_cons_self v rest)
          · exact Or.inr (List.mem_cons_of_mem v h)
        · rintro (h | h)
          · exact Or.inl (List.mem_append.mpr (Or.inl h))
          · rcases List.mem_cons.mp h with rfl | h
            · exact Or.inl (List.mem_append.mpr (Or.inr (by simp)))
            · exact Or.inr h
  rw [firstOccur, key]
  simp

/-- A firing variant occurs in the snapshot. -/
lemma guardFires_count_pos (types : List Variant) (n : ℕ) (t : Variant)
    (h : guardFires types n t) : 0 < types.count t := by
  by_contra h0
  push_neg at h0
  interval_cases hc : types.count t
  unfold guardFires at h
  rw [hc] at h
  norm_num at h

/-- In-bounds `get?` after `set` at the same index. -/
lemma get?_set_self_of_lt {α : Type} (l : List α) (i : ℕ) (v : α)
    (h : i < l.length) : (l.set i v).get? i = some v := by
  rw [List.get?_eq_getElem?]
  exact List.getElem?_set_eq_of_lt v h

/-- A single guard replacement leaves every other slot untouched. -/
lemma replaceFresh_get_ne (b : AutoSAD) (idx : ℕ) (rng : Rng) (i : ℕ)
    (h : idx ≠ i) :
    (replaceFresh b idx rng).1.models.get? i = b.models.get? i ∧
    (replaceFresh b idx rng).1.modelParams.get? i = b.modelParams.get? i ∧
    (replaceFresh b idx rng).1.scores.get? i = b.scores.get? i ∧
    (replaceFresh b idx rng).1.bandit.n.get? i = b.bandit.n.get? i ∧
    (replaceFresh b idx rng).1.bandit.mean.get? i = b.bandit.mean.get? i := by
  unfold replaceFresh BanditGate.reset
  exact ⟨List.get?_set_ne _ _ h, List.get?_set_ne _ _ h,
    List.get?_set_ne _ _ h, List.get?_set_ne _ _ h, List.get?_set_ne _ _ h⟩

/-- The flat replacement fold leaves slots outside the index list
untouched. -/
lemma replFold_get_ne :
    ∀ (L : List ℕ) (acc : AutoSAD × Rng) (i : ℕ), i ∉ L →
      ((L.foldl (fun a idx => replaceFresh a.1 idx a.2) acc).1.models.get? i =
        acc.1.models.get? i) ∧
      ((L.foldl (fun a idx => replaceFresh a.1 idx a.2) acc).1.modelParams.get? i =
        acc.1.modelParams.get? i) ∧
      ((L.foldl (fun a idx => replaceFresh a.1 idx a.2) acc).1.scores.get? i =
        acc.1.scores.get? i) ∧
      ((L.foldl (fun a idx => replaceFresh a.1 idx a.2) acc).1.bandit.n.get? i =
        acc.1.bandit.n.get? i) ∧
      ((L.foldl (fun a idx => replaceFresh a.1 idx a.2) acc).1.bandit.mean.get? i =
        acc.1.bandit.mean.get? i) := by
  intro L
  induction L with
  | nil => intro acc i _; exact ⟨rfl, rfl, rfl, rfl, rfl⟩
  | cons idx rest ih =>
    intro acc i hi
    have hidx : idx ≠ i := fun h => hi (by rw [h]; exact List.mem_cons_self i rest)
    have hrest : i ∉ rest := fun h => hi (List.mem_cons_of_mem idx h)
    rw [List.foldl_cons]
    have h1 := ih (replaceFresh acc.1 idx acc.2) i hrest
    have h2 := replaceFresh_get_ne acc.1 idx acc.2 i hidx
    exact ⟨h1.1.trans h2.1, h1.2.1.trans h2.2.1, h1.2.2.1.trans h2.2.2.1,
      h1.2.2.2.1.trans h2.2.2.2.1, h1.2.2.2.2.trans h2.2.2.2.2⟩

/-- The flat replacement fold installs at every listed (in-bounds) slot a
freshly drawn random arm, a fresh normaliser, and zeroed bandit
state. -/
lemma replFold_get_mem (sad0 : AutoSAD) :
    ∀ (L : List ℕ) (acc : AutoSAD × Rng) (i : ℕ),
      L.Nodup → i ∈ L → EvolveInv sad0 acc.1 →
      i < sad0.models.length → i < sad0.modelParams.length →
      i < sad0.scores.length → i < sad0.bandit.n.length →
      i < sad0.bandit.mean.length →
      (∃ r : Rng,
        ((L.foldl (fun a idx => replaceFresh a.1 idx a.2) acc).1.models.get? i =
          some ((randomModelWithParams sad0.randomState sad0.featureMins
            sad0.featureMaxes r).1.1)) ∧
        ((L.foldl (fun a idx => replaceFresh a.1 idx a.2) acc).1.modelParams.get? i =
          some ((randomModelWithParams sad0.randomState sad0.featureMins
            sad0.featureMaxes r).1.2))) ∧
      ((L.foldl (fun a idx => replaceFresh a.1 idx a.2) acc).1.scores.get? i =
        some PostProcessor.init) ∧
      ((L.foldl (fun a idx => replaceFresh a.1 idx a.2) acc).1.bandit.n.get? i =
        some 0) ∧
      ((L.foldl (fun a idx => replaceFresh a.1 idx a.2) acc).1.bandit.mean.get? i =
        some 0) := by
  intro L
  induction L with
  | nil => intro acc i _ hmem; exact absurd hmem (List.not_mem_nil i)
  | cons idx rest ih =>
    intro acc i hnd hmem hinv hb1 hb2 hb3 hb4 hb5
    have hinv' : EvolveInv sad0 (replaceFresh acc.1 idx acc.2).1 :=
      replaceFresh_evolveInv sad0 acc.1 idx acc.2 hinv
    rw [List.foldl_cons]
    rcases List.mem_cons.mp hmem with rfl | hrest
    · have hni : i ∉ rest := (List.nodup_cons.mp hnd).1
      have hne := replFold_get_ne rest (replaceFresh acc.1 i acc.2) i hni
      have l1 : i < acc.1.models.length := by rw [hinv.models_len]; exact hb1
      have l2 : i < acc.1.modelParams.length := by
        rw [hinv.params_len]; exact hb2
      have l3 : i < acc.1.scores.length := by rw [hinv.scores_len]; exact hb3
      have l4 : i < acc.1.bandit.n.length := by rw [hinv.bn_len]; exact hb4
      have l5 : i < acc.1.bandit.mean.length := by
        rw [hinv.bmean_len]; exact hb5
      refine ⟨⟨acc.2, ?_, ?_⟩, ?_, ?_, ?_⟩
      · rw [hne.1]
        show (acc.1.models.set i _).get? i = _
        rw [get?_set_self_of_lt _ _ _ l1, hinv.randomState_eq, hinv.fmins_eq,
          hinv.fmaxes_eq]
      · rw [hne.2.1]
        show (acc.1.modelParams.set i _).get? i = _
        rw [get?_set_self_of_lt _ _ _ l2, hinv.randomState_eq, hinv.fmins_eq,
          hinv.fmaxes_eq]
      · rw [hne.2.2.1]
        show (acc.1.scores.set i _).get? i = _
        rw [get?_set_self_of_lt _ _ _ l3]
      · rw [hne.2.2.2.1]
        show (acc.1.bandit.n.set i 0).get? i = _
        rw [get?_set_self_of_lt _ _ _ l4]
      · rw [hne.2.2.2.2]
        show (acc.1.bandit.mean.set i 0).get? i = _
        rw [get?_set_self_of_lt _ _ _ l5]
    · exact ih (replaceFresh acc.1 idx acc.2) i (List.nodup_cons.mp hnd).2
        hrest hinv' hb1 hb2 hb3 hb4 hb5

/-- `firstOccur` never repeats a variant. -/
lemma firstOccur_nodup (l : List Variant) : (firstOccur l).Nodup := by
  have key : ∀ (l : List Variant) (acc : List Variant), acc.Nodup →
      (l.foldl (fun acc v => if v ∈ acc then acc else acc ++ [v]) acc).Nodup := by
    intro l
    induction l with
    | nil => intro acc h; exact h
    | cons v rest ih =>
      intro acc h
      rw [List.foldl_cons]
      by_cases hv : v ∈ acc
      · rw [if_pos hv]; exact ih acc h
      · rw [if_neg hv]
        refine ih _ ?_
        rw [List.nodup_append]
        exact ⟨h, List.nodup_singleton v, by simpa using hv⟩
  exact key l [] List.nodup_nil

/-- The guard's replacement indices are pairwise distinct: the blocks of
different fired variants are disjoint (an index determines its
variant) and each block is itself duplicate-free. -/
lemma guardReplaced_nodup (types : List Variant) (n : ℕ) :
    (guardReplaced types n).Nodup := by
  unfold guardReplaced
  have key : ∀ (ts : List Variant) (acc : List ℕ), ts.Nodup → acc.Nodup →
      (∀ i ∈ acc, ∀ u ∈ ts, types.get? i ≠ some u) →
      (ts.foldl (fun acc t =>
        if (7 : ℚ)/10 < (types.count t : ℚ) / (n : ℚ) then
          acc ++ (indicesOf types t).drop 1
        else acc) acc).Nodup := by
    intro ts
    induction ts with
    | nil => intro acc _ h _; exact h
    | cons t rest ih =>
      intro acc hts hacc hsep
      rw [List.foldl_cons]
      have htsr : rest.Nodup := (List.nodup_cons.mp hts).2
      have htnr : t ∉ rest := (List.nodup_cons.mp hts).1
      by_cases hc : (7 : ℚ)/10 < (types.count t : ℚ) / (n : ℚ)
      · rw [if_pos hc]
        refine ih _ htsr ?_ ?_
        · rw [List.nodup_append]
          refine ⟨hacc, ?_, ?_⟩
          · exact (indicesOf_nodup types t).sublist (List.drop_sublist 1 _)
          · intro i hi hj
            have hit : types.get? i = some t :=
              (indicesOf_mem types t i).mp (List.mem_of_mem_drop hj)
            exact hsep i hi t (List.mem_cons_self t rest) hit
        · intro i hi u hu
          rcases List.mem_append.mp hi with hi | hi
          · exact hsep i hi u (List.mem_cons_of_mem t hu)
          · have hit : types.get? i = some t :=
              (indicesOf_mem types t i).mp (List.mem_of_mem_drop hi)
            rw [hit]
            intro he
            have : t = u := by injection he
            rw [this] at htnr
            exact htnr hu
      · rw [if_neg hc]
        refine ih _ htsr hacc ?_
        intro i hi u hu
        exact hsep i hi u (List.mem_cons_of_mem t hu)
  refine key (firstOccur types) [] (firstOccur_nodup types) List.nodup_nil ?_
  intro i hi
  exact absurd hi (List.not_mem_nil i)

/-- C3 (amended): when the diversity guard fires for a variant, the
single arm of that variant it leaves untouched is the one at the
smallest pool index (the first occurrence — the `[1:]` slice), not
the incumbent with the best acquisition value; every other arm of
that variant is replaced by a freshly drawn random arm whose
normaliser is reset and whose bandit state is zeroed. -/
theorem diversity_guard_keeps_first_index (sad : AutoSAD) (rng : Rng)
    (t : Variant)
    (h2 : sad.modelParams.length = sad.models.length)
    (h3 : sad.scores.length = sad.models.length)
    (h4 : sad.bandit.n.length = sad.models.length)
    (h5 : sad.bandit.mean.length = sad.models.length)
    (hfire : guardFires (sad.models.map Scorer.variant) sad.nModels t) :
    (diversityGuard sad rng).1.models.get?
        ((indicesOf (sad.models.map Scorer.variant) t).headD 0) =
      sad.models.get?
        ((indicesOf (sad.models.map Scorer.variant) t).headD 0) ∧
    ∀ i ∈ (indicesOf (sad.models.map Scorer.variant) t).drop 1,
      (∃ r : Rng,
        (diversityGuard sad rng).1.models.get? i =
          some ((randomModelWithParams sad.randomState sad.featureMins
            sad.featureMaxes r).1.1) ∧
        (diversityGuard sad rng).1.modelParams.get? i =
          some ((randomModelWithParams sad.randomState sad.featureMins
            sad.featureMaxes r).1.2)) ∧
      (diversityGuard sad rng).1.scores.get? i = some PostProcessor.init ∧
      (diversityGuard sad rng).1.bandit.n.get? i = some 0 ∧
      (diversityGuard sad rng).1.bandit.mean.get? i = some 0 := by
  have hcount := guardFires_count_pos (sad.models.map Scorer.variant)
    sad.nModels t hfire
  have hlistlen := indicesOf_length (sad.models.map Scorer.variant) t
  have hne : indicesOf (sad.models.map Scorer.variant) t ≠ [] := by
    intro h
    rw [h] at hlistlen
    simp at hlistlen
    omega
  rw [diversityGuard_eq_flat]
  constructor
  · have hhead : (indicesOf (sad.models.map Scorer.variant) t).headD 0 ∈
        indicesOf (sad.models.map Scorer.variant) t := by
      cases hl : indicesOf (sad.models.map Scorer.variant) t with
      | nil => exact absurd hl hne
      | cons x xs => simp
    have hnot : (indicesOf (sad.models.map Scorer.variant) t).headD 0 ∉
        guardReplaced (sad.models.map Scorer.variant) sad.nModels := by
      intro hmem
      obtain ⟨u, hu, hcu, hdu⟩ :=
        (mem_guardReplaced (sad.models.map Scorer.variant) sad.nModels _).mp hmem
      have hgt := (indicesOf_mem (sad.models.map Scorer.variant) t _).mp hhead
      have hgu := (indicesOf_mem (sad.models.map Scorer.variant) u _).mp
        (List.mem_of_mem_drop hdu)
      have hut : u = t := by
        have := hgu.symm.trans hgt
        injection this
      rw [hut] at hdu
      revert hdu
      cases hl : indicesOf (sad.models.map Scorer.variant) t with
      | nil => exact absurd hl hne
      | cons x xs =>
        intro hdu
        have hnd := indicesOf_nodup (sad.models.map Scorer.variant) t
        rw [hl] at hnd
        simp only [List.headD_cons, List.drop_one, List.tail_cons] at hdu
        exact (List.nodup_cons.mp hnd).1 hdu
    exact (replFold_get_ne _ _ _ hnot).1
  · intro i hi
    have himem : i ∈ indicesOf (sad.models.map Scorer.variant) t :=
      List.mem_of_mem_drop hi
    have hgt := (indicesOf_mem (sad.models.map Scorer.variant) t i).mp himem
    have hib : i < (sad.models.map Scorer.variant).length := by
      rcases List.get?_eq_some.mp hgt with ⟨hlt, _⟩
      exact hlt
    have hibm : i < sad.models.length := by rwa [List.length_map] at hib
    have hmem : i ∈ guardReplaced (sad.models.map Scorer.variant)
        sad.nModels := by
      refine (mem_guardReplaced _ _ _).mpr ⟨t, ?_, hfire, hi⟩
      rw [mem_firstOccur]
      exact List.count_pos_iff_mem.mp hcount
    exact replFold_get_mem sad _ (sad, rng) i
      (guardReplaced_nodup _ sad.nModels) hmem (evolveInv_refl sad)
      hibm (by rwa [h2]) (by rwa [h3]) (by rwa [h4]) (by rwa [h5])

/-- A third LODA configuration. -/
def cfgL3 : Config :=
  [("random_state", .int 52), ("num_bins", .int 150),
   ("num_random_cuts", .int 25)]

/-- A three-arm all-LODA state about to undergo evolution.  With `t = 0`
every arm's confidence term is `sqrt(2*ln 1 / 1) = 0`, so the UCB
acquisition values are just the bandit means `[0.3, 0.2, 0.1]` and
arm 2 is the unique acquisition minimiser. -/
def st3 : AutoSAD :=
  { nModels := 3, randomState := 52, acqStrategy := .UCB,
    featureMins := none, featureMaxes := none,
    models := [(.loda, cfgL1, []), (.loda, cfgL2, []), (.loda, cfgL3, [])],
    modelParams := [cfgL1, cfgL2, cfgL3],
    scores := [PostProcessor.init, PostProcessor.init, PostProcessor.init],
    step := 3000, explorationStd := 1,
    bandit := { n := [0, 0, 0], mean := [3/10, 2/10, 1/10], t := 0,
                decay := 1/5 },
    rewardCalc := ⟨1000, [[0], [0], [0]], [0], some 3⟩ }

/-- Witness for C3 at `st3`: LODA occupies the whole pool, the guard
fires, and the guard's effect is as the amended claim states. -/
theorem diversity_guard_keeps_first_index_witness :
    guardFires (st3.models.map Scorer.variant) st3.nModels .loda ∧
    ((diversityGuard st3 rng0).1.models.get?
        ((indicesOf (st3.models.map Scorer.variant) .loda).headD 0) =
      st3.models.get?
        ((indicesOf (st3.models.map Scorer.variant) .loda).headD 0) ∧
    ∀ i ∈ (indicesOf (st3.models.map Scorer.variant) .loda).drop 1,
      (∃ r : Rng,
        (diversityGuard st3 rng0).1.models.get? i =
          some ((randomModelWithParams st3.randomState st3.featureMins
            st3.featureMaxes r).1.1) ∧
        (diversityGuard st3 rng0).1.modelParams.get? i =
          some ((randomModelWithParams st3.randomState st3.featureMins
            st3.featureMaxes r).1.2)) ∧
      (diversityGuard st3 rng0).1.scores.get? i = some PostProcessor.init ∧
      (diversityGuard st3 rng0).1.bandit.n.get? i = some 0 ∧
      (diversityGuard st3 rng0).1.bandit.mean.get? i = some 0) := by
  have hfire : guardFires (st3.models.map Scorer.variant) st3.nModels .loda := by
    norm_num [guardFires, st3, Scorer.variant, List.count_cons]
  exact ⟨hfire,
    diversity_guard_keeps_first_index st3 rng0 .loda rfl rfl rfl rfl hfire⟩

/-- C3 counterexample: at `st3` the best (minimum) acquisition incumbent
of the over-represented variant is arm 2, yet after the evolution
cycle arm 2 holds a freshly drawn `HalfSpaceTrees` arm — the code's
guard keeps the first-listed index (here arm 0, which the mutation
phase had just overwritten), not the best-acquisition incumbent. -/
theorem evolve_guard_replaces_best_acq_arm :
    argminIdx (st3.bandit.acq prims0 st3.acqStrategy) = 2 ∧
    (st3.models.map Scorer.variant).get? 2 = some .loda ∧
    guardFires (st3.models.map Scorer.variant) st3.nModels .loda ∧
    ((evolve prims0 st3 rng0).1.models.map Scorer.variant).get? 2 =
      some .halfSpaceTrees := by
  refine ⟨?_, ?_, ?_, ?_⟩
  · norm_num [argminIdx, st3, prims0, BanditGate.acq, BanditGate.ucb,
      BanditGate.conf, List.enum, List.enumFrom]
  · norm_num [st3, Scorer.variant]
  · norm_num [guardFires, st3, Scorer.variant, List.count_cons]
  · norm_num [evolve, evolveDecay, evolveMutation, diversityGuard,
      replaceFresh, AutoSAD.mutate, mutStep, pwhs, snapToGrid, npVar, npMean,
      npClip, setEntry, getEntry_cons, getEntry_nil, randomModelWithParams,
      variantOfIdx,
      Rng.nextNat, Rng.nextRat, argsortIdx, insertRanked, argminIdx,
      BanditGate.acq, BanditGate.ucb, BanditGate.conf, BanditGate.reset,
      Scorer.variant, firstOccur, indicesOf, indicesOfFrom, guardFires,
      st3, prims0, rng0, cfgL1, cfgL2, cfgL3, HPValue.toRat,
      HPValue.isNumeric, HPValue.isInt, pyRound, exp2Dyadic,
      PostProcessor.mean, PostProcessor.init, hyperparameterOptions,
      List.enum, List.enumFrom, List.count_cons]
    simp +decide [List.set]

/-- A duplicate-free list whose elements are all equal has at most one
element. -/
lemma nodup_all_eq_length_le_one {α : Type} (l : List α) (h : l.Nodup)
    (a : α) (ha : ∀ x ∈ l, x = a) : l.length ≤ 1 := by
  cases l with
  | nil => simp
  | cons x xs =>
    cases xs with
    | nil => simp
    | cons y ys =>
      exfalso
      have hx : x = a := ha x (List.mem_cons_self x (y :: ys))
      have hy : y = a := ha y (List.mem_cons_of_mem x (List.mem_cons_self y ys))
      exact (List.nodup_cons.mp h).1
        (by rw [hx, ← hy]; exact List.mem_cons_self y ys)

/-- C4 (amended): after the diversity guard, a variant that fired keeps
exactly its first-listed arm from the pre-guard pool, so it satisfies
the 70% bound (for pools of at least two arms) provided none of the
fresh random replacements drawn during the guard reinstates that
variant — without that proviso the bound can fail, because the
replacement draws are uniform over all variants and may redraw the
over-represented one (see the counterexample). -/
theorem diversity_guard_bound (sad : AutoSAD) (rng : Rng) (t : Variant)
    (hn : 2 ≤ sad.nModels)
    (hfire : guardFires (sad.models.map Scorer.variant) sad.nModels t)
    (hfresh : ∀ i ∈ guardReplaced (sad.models.map Scorer.variant) sad.nModels,
      ((diversityGuard sad rng).1.models.map Scorer.variant).get? i ≠
        some t) :
    ((((diversityGuard sad rng).1.models.map Scorer.variant).count t) : ℚ) ≤
      7/10 * (sad.nModels : ℚ) := by
  have hcount := guardFires_count_pos (sad.models.map Scorer.variant)
    sad.nModels t hfire
  have hne : indicesOf (sad.models.map Scorer.variant) t ≠ [] := by
    intro h
    have := indicesOf_length (sad.models.map Scorer.variant) t
    rw [h] at this
    simp at this
    omega
  have hkey : (((diversityGuard sad rng).1.models.map Scorer.variant).count t) ≤ 1 := by
    rw [← indicesOf_length]
    refine nodup_all_eq_length_le_one _
      (indicesOf_nodup _ t)
      ((indicesOf (sad.models.map Scorer.variant) t).headD 0) ?_
    intro i hi
    have hpost : ((diversityGuard sad rng).1.models.map Scorer.variant).get? i =
        some t := (indicesOf_mem _ t i).mp hi
    have hiR : i ∉ guardReplaced (sad.models.map Scorer.variant) sad.nModels :=
      fun hmem => hfresh i hmem hpost
    have htrans : ((diversityGuard sad rng).1.models.map Scorer.variant).get? i =
        (sad.models.map Scorer.variant).get? i := by
      rw [List.get?_map, List.get?_map]
      rw [diversityGuard_eq_flat]
      rw [(replFold_get_ne _ _ _ hiR).1]
    have hpre : (sad.models.map Scorer.variant).get? i = some t := by
      rw [← htrans]; exact hpost
    have hipre : i ∈ indicesOf (sad.models.map Scorer.variant) t :=
      (indicesOf_mem _ t i).mpr hpre
    revert hipre
    cases hl : indicesOf (sad.models.map Scorer.variant) t with
    | nil => exact absurd hl hne
    | cons x xs =>
      intro hipre
      rcases List.mem_cons.mp hipre with rfl | hxs
      · simp
      · exfalso
        have hiR2 : i ∈ guardReplaced (sad.models.map Scorer.variant)
            sad.nModels := by
          refine (mem_guardReplaced _ _ _).mpr ⟨t, ?_, hfire, ?_⟩
          · rw [mem_firstOccur]
            exact List.count_pos_iff_mem.mp hcount
          · rw [hl]
            simpa using hxs
        exact hiR hiR2
  have h2 : (2 : ℚ) ≤ (sad.nModels : ℚ) := by exact_mod_cast hn
  have hq : ((((diversityGuard sad rng).1.models.map Scorer.variant).count t) : ℚ) ≤ 1 := by
    exact_mod_cast hkey
  linarith

/-- Witness for C4 at `st3`: the guard fires for LODA, the all-zero tape
draws `HalfSpaceTrees` replacements (no redraw of LODA), and the
post-guard LODA share meets the 70% bound. -/
theorem diversity_guard_bound_witness :
    2 ≤ st3.nModels ∧
    guardFires (st3.models.map Scorer.variant) st3.nModels .loda ∧
    ((((diversityGuard st3 rng0).1.models.map Scorer.variant).count
        Variant.loda) : ℚ) ≤ 7/10 * (st3.nModels : ℚ) := by
  have hfire : guardFires (st3.models.map Scorer.variant) st3.nModels .loda := by
    norm_num [guardFires, st3, Scorer.variant, List.count_cons]
  have hR : guardReplaced (st3.models.map Scorer.variant) st3.nModels =
      [1, 2] := by
    norm_num [guardReplaced, firstOccur, indicesOf, indicesOfFrom, st3,
      Scorer.variant, List.count_cons, List.foldl_cons, List.foldl_nil]
  have hpost : ((diversityGuard st3 rng0).1.models.map Scorer.variant) =
      [.loda, .halfSpaceTrees, .halfSpaceTrees] := by
    norm_num [diversityGuard, replaceFresh, randomModelWithParams,
      variantOfIdx, Rng.nextNat, Rng.nextRat, BanditGate.reset,
      Scorer.variant, firstOccur, indicesOf, indicesOfFrom, st3, rng0,
      cfgL1, cfgL2, cfgL3, hyperparameterOptions, List.count_cons]
  have hfresh : ∀ i ∈ guardReplaced (st3.models.map Scorer.variant)
      st3.nModels,
      ((diversityGuard st3 rng0).1.models.map Scorer.variant).get? i ≠
        some .loda := by
    intro i hi
    rw [hR] at hi
    rw [hpost]
    rcases List.mem_cons.mp hi with rfl | hi
    · decide
    · rcases List.mem_cons.mp hi with rfl | hi
      · decide
      · exact absurd hi (List.not_mem_nil i)
  exact ⟨by norm_num [st3], hfire,
    diversity_guard_bound st3 rng0 .loda (by norm_num [st3]) hfire hfresh⟩

/-- A tape whose index draws are all `3` — every variant draw picks
LODA. -/
def rng3 : Rng := ⟨0, fun _ => 3, fun _ => 0⟩

set_option maxHeartbeats 2000000 in
/-- C4 counterexample: at `st3` (three LODA arms; the pool is large
enough for the guard to meet the bound, since keeping one arm of
three leaves 33%) the guard fires for LODA, but every fresh
replacement draw picks LODA again, so immediately after the evolution
cycle LODA still occupies 100% > 70% of the pool: the guard does not
guarantee the diversity bound. -/
theorem evolve_guard_bound_violated :
    guardFires (st3.models.map Scorer.variant) st3.nModels .loda ∧
    (7 : ℚ)/10 <
      ((((evolve prims0 st3 rng3).1.models.map Scorer.variant).count
        Variant.loda) : ℚ) / (st3.nModels : ℚ) := by
  constructor
  · norm_num [guardFires, st3, Scorer.variant, List.count_cons]
  · norm_num [evolve, evolveDecay, evolveMutation, diversityGuard,
      replaceFresh, AutoSAD.mutate, mutStep, pwhs, snapToGrid, npVar, npMean,
      npClip, setEntry, getEntry_cons, getEntry_nil, randomModelWithParams,
      variantOfIdx, Rng.nextNat, Rng.nextRat, argsortIdx, insertRanked,
      argminIdx, BanditGate.acq, BanditGate.ucb, BanditGate.conf,
      BanditGate.reset, Scorer.variant, firstOccur, indicesOf, indicesOfFrom,
      guardFires, st3, prims0, rng3, cfgL1, cfgL2, cfgL3,
      HPValue.toRat, HPValue.isNumeric, HPValue.isInt, pyRound, exp2Dyadic,
      PostProcessor.mean, PostProcessor.init, hyperparameterOptions,
      List.enum, List.enumFrom, List.count_cons]
    simp +decide [List.set, List.count_cons]
    norm_num
